import Mathlib

set_option maxRecDepth 10000

/-!
Verification development for the documentation-generation pipeline of the
`comphy-lab/soapy` repository (`.github/scripts/generate_docs.py`).

The Python functions relevant to the checked properties are shallowly embedded
below.  Filesystem paths are modelled as lists of path components
(`List String`); file contents and markup are modelled as `String` /
`List Char`; the external subprocess collaborators (pandoc, literate-c) are
modelled by their observable results (exit code and captured output), passed
in explicitly.  Stateful pipeline code (the per-file loop of `main`) is
modelled as a fold over an explicit state carrying the generated-files
registry and an association-list filesystem.
-/

/-! ## Generic string helpers (models of Python `str` primitives) -/

/-- Characters treated as whitespace by Python's `str.strip()` and the regex
class `\s` (restricted to the ASCII range, which is all the pipeline uses). -/
def isPyWs (c : Char) : Bool :=
  c = ' ' || c = '\t' || c = '\n' || c = '\r' || c = '\x0b' || c = '\x0c'

/-- Model of Python `str.strip()` on a character list. -/
def trimL (l : List Char) : List Char :=
  ((l.dropWhile isPyWs).reverse.dropWhile isPyWs).reverse

/-- Model of Python `str.strip()`. -/
def trimS (s : String) : String :=
  String.mk (trimL s.toList)

/-- Substring scan: does `pat` occur contiguously inside the list? -/
def scanContains (pat : List Char) : List Char → Bool
  | [] => pat.isPrefixOf []
  | c :: cs => pat.isPrefixOf (c :: cs) || scanContains pat cs

/-- Model of Python's `pat in s` substring test. -/
def containsSub (s pat : String) : Bool :=
  scanContains pat.toList s.toList

/-- Fuel-driven worker for `replaceAllS`; scanning is left-to-right and the
replacement text is never rescanned, exactly as in Python `str.replace`. -/
def replaceAllGo (pat rep : List Char) : Nat → List Char → List Char
  | 0, l => l
  | _ + 1, [] => []
  | n + 1, c :: cs =>
    if pat.isPrefixOf (c :: cs) then rep ++ replaceAllGo pat rep n ((c :: cs).drop pat.length)
    else c :: replaceAllGo pat rep n cs

/-- Model of Python `s.replace(pat, rep)` for a non-empty `pat` (every call
site in the source uses a non-empty pattern, so fuel `s.length` is enough). -/
def replaceAllS (pat rep s : String) : String :=
  String.mk (replaceAllGo pat.toList rep.toList s.toList.length s.toList)

/-! ## `calculate_asset_prefix` (generate_docs.py lines 23-40)

Paths are lists of components; `docs_dir` is the documentation root.
`relative_to` models `PurePath.relative_to`, which raises `ValueError`
(modelled as `none`) when `docs_dir` is not a lexical prefix of the path.
For a relative path of `n` components, Python's `len(rel.parents)` is `n`
(and `0` for the empty relative path `.`), so `depth = n - 1` as an integer. -/

def relative_to (p base : List String) : Option (List String) :=
  if base.isPrefixOf p then some (p.drop base.length) else none

def calculate_asset_prefix (output_path docs_dir : List String) : String :=
  -- line 35: `output_path.name == "index.html" and output_path.parent == docs_dir`
  if output_path.getLast? = some "index.html" ∧ output_path.dropLast = docs_dir then "."
  else
    match relative_to output_path docs_dir with
    | none => "."  -- lines 39-40: `except ValueError: return "."`
    | some rel =>
      -- line 37: `depth = len(output_path.relative_to(docs_dir).parents) - 1`
      let depth : Int := (rel.length : Int) - 1
      -- line 38: `return "." if depth <= 0 else "/".join([".."] * depth)`
      if depth ≤ 0 then "." else String.intercalate "/" (List.replicate depth.toNat "..")

/-! ## `process_c_file` (generate_docs.py lines 563-595)

The literate-c collaborator is modelled by its observable result:
`none` models the invocation itself raising (caught at line 593), and
`some (returncode, stdout)` models a completed run. -/

def process_c_file (file_name file_content : String)
    (literateC : Option (Int × String)) : String :=
  let markdown_content := "# " ++ file_name ++ "\n\n```c\n" ++ file_content ++ "\n```"
  match literateC with
  | some (returncode, out) =>
    -- line 587: `if preproc_proc.returncode == 0 and content.strip():`
    if returncode = 0 ∧ trimS out ≠ "" then replaceAllS "~~~literatec" "~~~c" out
    else markdown_content
  | none => markdown_content

/-! ## The per-file pipeline loop (generate_docs.py `main`, lines 1917-1984,
with `run_pandoc` lines 681-689 and `process_file_with_page2html_logic`
lines 1159-1281)

The filesystem is modelled as an association list from output paths to file
contents (later writes shadow earlier entries).  A `Job` carries one source
file of the batch: its source path, its computed output path, whether its
pandoc invocation exits with status 0 (`pandocOk`), and the final content
the conversion + post-processing would produce on success (`rendered`).
`postStale` abstracts the post-processing applied when a stale output file
is re-read; it plays no role in the proved claims but keeps that code path
represented.

Control-flow facts captured from the source:
* `run_pandoc` returns early (printing the error) on a non-zero exit,
  before any of its own writes (lines 687-689); pandoc itself, invoked with
  `-o output_html_path`, writes the output file only on success.
* `process_file_with_page2html_logic` then re-opens `output_html_path`
  (lines 1253/1262); if the file does not exist, the raised exception is
  caught at lines 1279-1281 and the function returns `False` after logging.
* `main` adds `(file_path, output_html_path)` to `generated_files` only when
  processing returned `True` (lines 1972-1984), or in the skip branch
  (lines 1966-1969), and the loop always continues with the next file. -/

structure Job where
  src : String
  out : String
  rendered : String
  pandocOk : Bool
deriving DecidableEq, Repr

abbrev FS := List (String × String)

/-- Read a file: the most recent write to the path wins. -/
def fsGet (fs : FS) (p : String) : Option String :=
  ((fs : List (String × String)).find? (fun e => e.1 = p)).map (fun e => e.2)

/-- Write a file (shadowing any previous content at that path). -/
def fsWrite (fs : FS) (p c : String) : FS :=
  ((p, c) :: fs : List (String × String))

structure PipeState where
  reg : List (String × String)
  fs : FS
deriving DecidableEq, Repr

/-- One conversion attempt: `run_pandoc` followed by the re-open and
post-processing of `process_file_with_page2html_logic`.  Returns the
success flag and the filesystem after the attempt. -/
def processFile (postStale : String → String) (j : Job) (fs : FS) : Bool × FS :=
  if j.pandocOk then
    (true, fsWrite fs j.out j.rendered)
  else
    -- run_pandoc printed the error and returned "" without writing;
    -- the subsequent open() of the output path decides the outcome.
    match fsGet fs j.out with
    | none => (false, fs)
    | some stale => (true, fsWrite fs j.out (postStale stale))

/-- One iteration of the per-file loop of `main` (lines 1957-1984). -/
def pipelineStep (force : Bool) (postStale : String → String)
    (st : PipeState) (j : Job) : PipeState :=
  -- lines 1966-1969: skip existing outputs unless force-rebuild
  if ¬ force ∧ (fsGet st.fs j.out).isSome then
    { st with reg := st.reg ++ [(j.src, j.out)] }
  else
    match processFile postStale j st.fs with
    | (true, fs') => { reg := st.reg ++ [(j.src, j.out)], fs := fs' }
    | (false, fs') => { st with fs := fs' }

/-- Force-rebuild cleaning (lines 1931-1938): all `*.html` files below the
documentation root are deleted before the loop runs. -/
def cleanDocs (force : Bool) (fs : FS) : FS :=
  if force then (fs : List (String × String)).filter (fun e => ¬ e.1.endsWith ".html") else fs

/-- The whole per-file loop of `main` over a batch of jobs. -/
def pipelineRun (force : Bool) (postStale : String → String)
    (jobs : List Job) (fs0 : FS) : PipeState :=
  jobs.foldl (pipelineStep force postStale) ⟨[], cleanDocs force fs0⟩

/-! ## Copy-button and CSS-link injection (generate_docs.py lines 1000-1157)

Both functions read an HTML file, transform its content, and write it back;
the embedding is the content transformation.  `copy_js` is the exact inline
script inserted by `insert_javascript_in_html` (lines 1056-1126). -/

def copy_js : String :=
  "\n<script type=\"text/javascript\">\ndocument.addEventListener('DOMContentLoaded', function() \x7b\n    // Add copy button to each code block container\n    const codeBlocks = document.querySelectorAll('.code-block-container pre');\n    codeBlocks.forEach(function(codeBlock, index) \x7b\n        // Create button element\n        const button = document.createElement('button');\n        button.className = 'copy-button';\n        button.textContent = 'Copy';\n        button.setAttribute('aria-label', 'Copy code to clipboard');\n        button.setAttribute('data-copy-state', 'copy');\n        \n        // Get the code block container (parent of the pre)\n        const container = codeBlock.parentNode;\n        \n        // Add the button to the container\n        container.appendChild(button);\n        \n        // Set up click event\n        button.addEventListener('click', async function() \x7b\n            const codeText = codeBlock.textContent;\n            \n            try \x7b\n                // Try to use the modern clipboard API first\n                if (navigator.clipboard && navigator.clipboard.writeText) \x7b\n                    await navigator.clipboard.writeText(codeText);\n                    updateButtonState(button, 'success');\n                \x7d else \x7b\n                    // Fall back to the deprecated execCommand method\n                    const textarea = document.createElement('textarea');\n                    textarea.value = codeText;\n                    textarea.style.position = 'fixed';  // Prevent scrolling to the bottom\n                    document.body.appendChild(textarea);\n                    textarea.select();\n                    \n                    const successful = document.execCommand('copy');\n                    document.body.removeChild(textarea);\n                    \n                    if (successful) \x7b\n                        updateButtonState(button, 'success');\n                    \x7d else \x7b\n                        updateButtonState(button, 'error');\n                    \x7d\n                \x7d\n            \x7d catch (err) \x7b\n                console.error('Copy failed:', err);\n                updateButtonState(button, 'error');\n            \x7d\n        \x7d);\n    \x7d);\n    \n    // Function to update button state\n    function updateButtonState(button, state) \x7b\n        if (state === 'success') \x7b\n            button.textContent = 'Copied!';\n            button.classList.add('copied');\n        \x7d else if (state === 'error') \x7b\n            button.textContent = 'Error!';\n            button.classList.add('error');\n        \x7d\n        \n        // Reset button state after 2 seconds\n        setTimeout(function() \x7b\n            button.textContent = 'Copy';\n            button.classList.remove('copied', 'error');\n        \x7d, 2000);\n    \x7d\n\x7d);\n</script>\n        "

/-- First index at which `pat` occurs in `l`, mirroring Python `str.find`
(`none` for Python's -1). -/
def findSubIdx (l pat : List Char) : Option Nat :=
  (List.range (l.length + 1)).find? (fun i => pat.isPrefixOf (l.drop i))

/-- Model of Python `s.find(pat)`. -/
def findSubIdxS (s pat : String) : Option Nat :=
  findSubIdx s.toList pat.toList

/-- Model of Python slicing `s[:n]`. -/
def strTake (s : String) (n : Nat) : String :=
  String.mk (s.toList.take n)

/-- Model of Python slicing `s[n:]`. -/
def strDrop (s : String) (n : Nat) : String :=
  String.mk (s.toList.drop n)

/-- Insertion of `ins` immediately before the first occurrence of `pat`;
this is `content[:idx] + ins + content[idx:]` for `idx = content.find(pat)`
when `pat` does occur (and the identity otherwise, a case the caller below
separates out with its own containment check). -/
def spliceBefore (pat ins : List Char) : List Char → List Char
  | [] => []
  | c :: cs =>
    if pat.isPrefixOf (c :: cs) then ins ++ c :: cs else c :: spliceBefore pat ins cs

/-- Content transformation of `insert_javascript_in_html`
(generate_docs.py lines 1045-1157).  Python computes
`body_end_idx = content.find('</body>')` and splices with
`content[:body_end_idx] + copy_js + content[body_end_idx:]`; a found index
is exactly a contained substring, and the splice at the found index is
exactly `spliceBefore`. -/
def insert_javascript_in_html (content : String) : String :=
  -- line 1128: `if 'class="copy-button"' in content: return True` (no change)
  if containsSub content "class=\"copy-button\"" then content
  -- line 1131: `body_end_idx = content.find('</body>')`
  else if containsSub content "</body>" then
    -- line 1149: `content[:body_end_idx] + copy_js + content[body_end_idx:]`
    String.mk (spliceBefore ("</body>".toList) copy_js.toList content.toList)
  else if containsSub content "<body>" then content ++ copy_js  -- line 1135
  else
    -- lines 1138-1147: wrap in a minimal document shell
    "<!DOCTYPE html>\n<html xmlns=\"http://www.w3.org/1999/xhtml\">\n<head>\n    <meta http-equiv=\"Content-Type\" content=\"text/html; charset=UTF-8\" />\n</head>\n<body>\n"
      ++ content ++ "\n" ++ copy_js ++ "\n</body>\n</html>"

/-- Content transformation of `insert_css_link_in_html`
(generate_docs.py lines 1000-1043). -/
def insert_css_link_in_html (content css_name : String) (is_root : Bool) : String :=
  let css_link :=
    if is_root then "<link href=\"" ++ css_name ++ "\" rel=\"stylesheet\" type=\"text/css\" />"
    else "<link href=\"../" ++ css_name ++ "\" rel=\"stylesheet\" type=\"text/css\" />"
  -- line 1014: prior-injection check on the link href marker
  if containsSub content ("link href=\"" ++ css_name ++ "\"")
      || containsSub content ("link href=\"../" ++ css_name ++ "\"") then content
  else
    match findSubIdxS content "</head>" with
    | some head_end_idx =>
      -- line 1035
      strTake content head_end_idx ++ "    " ++ css_link ++ "\n    " ++ strDrop content head_end_idx
    | none =>
      match findSubIdxS content "<head>" with
      | some head_start_idx =>
        -- line 1021
        strTake content (head_start_idx + 6) ++ "\n    " ++ css_link
          ++ strDrop content (head_start_idx + 6)
      | none =>
        -- lines 1024-1033
        "<!DOCTYPE html>\n<html xmlns=\"http://www.w3.org/1999/xhtml\">\n<head>\n    <meta http-equiv=\"Content-Type\" content=\"text/html; charset=UTF-8\" />\n    "
          ++ css_link ++ "\n</head>\n<body>\n" ++ content ++ "\n</body>\n</html>"

/-- A well-formed page used to exhibit the failing input of C6. -/
def samplePage : String :=
  "<!DOCTYPE html>\n<html>\n<head>\n</head>\n<body>\n<p>x</p>\n</body>\n</html>"

/-- The junction text that appears exactly when `copy_js` has been inserted
twice in a row: the tail of one copy followed by the head of the next. -/
def doubledScriptJunction : String :=
  "</script>\n        \n<script type=\"text/javascript\">"

/-! ## `process_python_file` (generate_docs.py lines 489-561)

The function splits the file on newlines and folds a small state machine over
the lines; the embedding models a line as a `List Char` and the loop state
explicitly.  `process_python_file` re-joins with newlines exactly as
`'\n'.join(processed_lines)` does. -/

/-- Python `line.strip().startswith('\x22\x22\x22') or line.strip().startswith("'''")`
(line 510). -/
def quoteStart (l : List Char) : Bool :=
  ("\"\"\"".toList).isPrefixOf (trimL l) || ("'''".toList).isPrefixOf (trimL l)

/-- A markdown fence line: a line beginning with three backticks. -/
def fenceLine (l : List Char) : Bool :=
  ("```".toList).isPrefixOf l

/-- Loop state of `process_python_file`: produced lines, the
`in_code_block`/`code_block` pair and the `in_docstring`/`docstring_lines`
pair. -/
structure PyState where
  processed : List (List Char)
  inCode : Bool
  codeBuf : List (List Char)
  inDoc : Bool
  docBuf : List (List Char)

/-- Cleaning of one buffered docstring line (lines 514-522): lines that are
exactly a triple quote are dropped; otherwise the line is stripped, any
leading/trailing triple quote removed, and stripped again. -/
def cleanDocLine (l : List Char) : Option (List Char) :=
  if trimL l = "\"\"\"".toList ∨ trimL l = "'''".toList then none
  else
    let d := trimL l
    let d := if ("\"\"\"".toList).isPrefixOf d || ("'''".toList).isPrefixOf d
      then d.drop 3 else d
    let d := if ("\"\"\"".toList).isSuffixOf d || ("'''".toList).isSuffixOf d
      then d.take (d.length - 3) else d
    some (trimL d)

/-- `clean_docstring` accumulation over the buffered docstring lines. -/
def cleanDocstring (ls : List (List Char)) : List (List Char) :=
  ls.filterMap cleanDocLine

/-- One iteration of the line loop (lines 509-549). -/
def pyStep (st : PyState) (line : List Char) : PyState :=
  if quoteStart line then
    if st.inDoc then
      -- lines 511-528: close the docstring, emit its cleaned lines
      { st with
        inDoc := false
        docBuf := []
        processed := if cleanDocstring st.docBuf ≠ [] then
            st.processed ++ [[]] ++ cleanDocstring st.docBuf ++ [[]]
          else st.processed }
    else if st.inCode then
      -- lines 529-536: open a docstring, flushing the open code block
      { processed := st.processed ++ ["```python".toList] ++ st.codeBuf ++ ["```".toList]
        inCode := false
        codeBuf := []
        inDoc := true
        docBuf := [] }
    else
      { st with inDoc := true }
  else if st.inDoc then
    { st with docBuf := st.docBuf ++ [line] }  -- lines 539-541
  else if ¬ st.inCode ∧ trimL line ≠ [] then
    { st with inCode := true, codeBuf := st.codeBuf ++ [line] }  -- lines 543-545
  else if st.inCode then
    { st with codeBuf := st.codeBuf ++ [line] }  -- lines 546-547
  else
    { st with processed := st.processed ++ [line] }  -- lines 548-549

/-- End-of-input closing (lines 551-559): an open code block is fenced shut,
an open docstring is emitted raw between blank lines. -/
def pyFinish (st : PyState) : List (List Char) :=
  let p1 := if st.inCode
    then st.processed ++ ["```python".toList] ++ st.codeBuf ++ ["```".toList]
    else st.processed
  if st.inDoc then p1 ++ [[]] ++ st.docBuf ++ [[]] else p1

/-- The whole line loop of `process_python_file` on a list of lines. -/
def process_python_lines (lines : List (List Char)) : List (List Char) :=
  pyFinish (lines.foldl pyStep ⟨[], false, [], false, []⟩)

/-- Worker for Python `content.split('\n')` on a character list. -/
def splitLinesL : List Char → List (List Char)
  | [] => [[]]
  | c :: cs =>
    if c = '\n' then [] :: splitLinesL cs
    else
      match splitLinesL cs with
      | [] => [[c]]
      | r :: rs => (c :: r) :: rs

/-- Python `content.split('\n')`: the empty string yields `[""]`, and a
trailing newline yields a trailing empty line. -/
def splitLines (s : String) : List (List Char) :=
  splitLinesL s.toList

/-- `process_python_file` (lines 489-561): split, fold the line loop, join. -/
def process_python_file (s : String) : String :=
  String.intercalate "\n" ((process_python_lines (splitLines s)).map String.mk)

/-- Number of fence lines in a list of lines. -/
def countFences (ls : List (List Char)) : Nat :=
  ls.countP fenceLine


/-- Invariant of the `process_python_file` loop: the emitted lines carry an
even number of fences, the open code block holds no fence lines, and the
buffered docstring lines neither strip to fences nor open/close quotes. -/
def PyInv (st : PyState) : Prop :=
  Even (countFences st.processed) ∧
  (∀ l ∈ st.codeBuf, fenceLine l = false) ∧
  (∀ l ∈ st.docBuf, fenceLine (trimL l) = false ∧ quoteStart l = false)

/-! ## `create_include_link` inside `post_process_c_html`
(generate_docs.py lines 950-986)

Paths are lists of components; `docs_dir` is `REPO_ROOT / 'docs'`
(line 138), which is how `main` invokes this code.  The existence check
`(repo_root / 'src-local' / check_filename).is_file()` is abstracted by the
oracle `srcLocalExists` on the checked file name. -/

/-- Python `filename.split('/')[-1]`: the text after the last slash. -/
def basenameL (l : List Char) : List Char :=
  l.foldl (fun acc c => if c = '/' then [] else acc ++ [c]) []

/-- String form of `basenameL`. -/
def pyBasename (s : String) : String :=
  String.mk (basenameL s.toList)

/-- Index of the `pathlib` suffix split point of a file name: the last dot,
provided it is neither the leading character nor the trailing one
(`PurePath.suffix` is empty for names like `.bashrc` or `name.`); when
there is no suffix the split point is the whole name. -/
def pyDotIdx (name : List Char) : Nat :=
  let t := (name.reverse.takeWhile (fun c => c ≠ '.')).length
  if t < name.length ∧ 0 < name.length - t - 1 ∧ 0 < t then name.length - t - 1
  else name.length

/-- `PurePath(name).stem`-like prefix (name with its suffix removed). -/
def pyStem (s : String) : String :=
  String.mk (s.toList.take (pyDotIdx s.toList))

/-- `PurePath(name).suffix`. -/
def pySuffix (s : String) : String :=
  String.mk (s.toList.drop (pyDotIdx s.toList))

/-- `PurePath.with_suffix`: replace the current suffix by `newSuffix`. -/
def pyWithSuffix (s newSuffix : String) : String :=
  pyStem s ++ newSuffix

/-- Length of the common component prefix of two paths
(`os.path.commonprefix` on component lists, as `os.path.relpath` uses). -/
def commonPrefixLen : List String → List String → Nat
  | a :: as, b :: bs => if a = b then 1 + commonPrefixLen as bs else 0
  | _, _ => 0

/-- `os.path.relpath(target, start)` on absolute component paths: climb out
of the non-shared part of `start`, then descend into the non-shared part of
`target` (the empty result is `os.curdir`). -/
def pyRelpath (target start : List String) : List String :=
  if List.replicate (start.length - commonPrefixLen target start) ".."
      ++ target.drop (commonPrefixLen target start) = [] then ["."]
  else List.replicate (start.length - commonPrefixLen target start) ".."
    ++ target.drop (commonPrefixLen target start)

/-- Python `'/'.join` on the character level. -/
def joinSlashL : List (List Char) → List Char
  | [] => []
  | [x] => x
  | x :: xs => x ++ '/' :: joinSlashL xs

/-- `'/'.join` of path components. -/
def joinSlash (parts : List String) : String :=
  String.mk (joinSlashL (parts.map String.toList))

/-- The call `link_url.replace('/docs/', '/')` of line 975, specialised to
its fixed pattern so that the left-to-right non-overlapping scan of Python
`str.replace` is structural (the preceding `replace('\\', '/')` is a no-op
on POSIX paths and is omitted). -/
def collapseDocs : List Char → List Char
  | [] => []
  | c :: cs =>
    if c = '/' ∧ ("docs/".toList).isPrefixOf cs then '/' :: collapseDocs (cs.drop 5)
    else c :: collapseDocs cs
termination_by l => l.length
decreasing_by
  · simp only [List.length_cons]
    have := List.length_drop 5 cs
    omega
  · simp

/-- The `link_url` computed by `create_include_link`
(generate_docs.py lines 960-982). -/
def create_include_link_url (filename : String) (file_parent repo_root : List String)
    (srcLocalExists : String → Bool) : String :=
  -- line 967: `check_filename = filename.split('/')[-1]`
  -- line 970: `if local_file_path.is_file():`
  if srcLocalExists (pyBasename filename) then
    -- line 971 `(docs_dir / 'src-local' / check).with_suffix(suffix + '.html')`,
    -- lines 973-975: relpath from the source file's directory, slash fixes
    String.mk (collapseDocs (joinSlash (pyRelpath
      (repo_root ++ ["docs", "src-local",
        pyWithSuffix (pyBasename filename) (pySuffix (pyBasename filename) ++ ".html")])
      file_parent)).toList)
  else
    -- line 980
    "http://basilisk.fr/src/" ++ filename

/-- The full anchor replacement string returned by `create_include_link`
(lines 960-983). -/
def create_include_link (pre spanOpen filename spanClose : String)
    (file_parent repo_root : List String) (srcLocalExists : String → Bool) : String :=
  let link_url := create_include_link_url filename file_parent repo_root srcLocalExists
  let link_title := if srcLocalExists (pyBasename filename)
    then "Link to local documentation for " ++ filename
    else "Link to Basilisk source for " ++ filename
  pre ++ "<a href=\"" ++ link_url ++ "\" title=\"" ++ link_title ++ "\">"
    ++ spanOpen ++ "\"" ++ filename ++ "\"" ++ spanClose ++ "</a>"

/-- Resolution of a relative link against the directory that contains the
page it appears on: `..` climbs one level, anything else descends. -/
def resolveRel (base : List String) (parts : List String) : List String :=
  parts.foldl (fun acc p => if p = ".." then acc.dropLast else acc ++ [p]) base


/-! ## `convert_directory_tree_to_html` (generate_docs.py lines 1283-1367)

The fenced-block search embeds the regex
`r'```\s*\n(.*?\n.*?.*?)\n```'` (DOTALL) of line 1295 with its
greedy/lazy backtracking priorities: start positions left to right, the
whitespace run before the first newline greedy, the group extension lazy
(the group must span at least one newline).  The returned quadruple is
(match start, group start, group end, match end).

The line loop (lines 1305-1360) is folded over the lines of the matched
block.  Note the source's line 1320
`clean_line = line.replace(' ', '').replace(' ', '').replace('   ', '')`
deletes every space character of the line (the second and third replace are
then no-ops), before line 1322 splits on whitespace — this is what the C3
theorem below exercises. -/

def wsRunLen (l : List Char) : Nat := (l.takeWhile isPyWs).length

def treeSearchAt (s : List Char) (p : Nat) : Option (Nat × Nat × Nat) :=
  if ("```".toList).isPrefixOf (s.drop p) then
    ((List.range (wsRunLen (s.drop (p + 3)) + 1)).reverse.findSome? (fun k =>
      if (s.drop (p + 3 + k)).head? = some '\n' then
        (List.range (s.length + 1)).findSome? (fun a =>
          if (s.drop (p + 3 + k + 1 + a)).head? = some '\n' then
            (List.range (s.length + 1)).findSome? (fun e0 =>
              if ("\n```".toList).isPrefixOf (s.drop (p + 3 + k + 1 + a + 1 + e0)) then
                some (p + 3 + k + 1, p + 3 + k + 1 + a + 1 + e0, p + 3 + k + 1 + a + 1 + e0 + 4)
              else none)
          else none)
      else none))
  else none

def treeSearch (s : List Char) : Option (Nat × Nat × Nat × Nat) :=
  (List.range (s.length + 1)).findSome? (fun p =>
    (treeSearchAt s p).map (fun r => (p, r.1, r.2.1, r.2.2)))

def count3sp : List Char → Nat
  | ' ' :: ' ' :: ' ' :: rest => 1 + count3sp rest
  | _ :: rest => count3sp rest
  | [] => 0

def splitNone1 (l : List Char) : List (List Char) :=
  let t := l.dropWhile isPyWs
  if t = [] then []
  else
    let tok := t.takeWhile (fun c => ¬ isPyWs c)
    let rest := (t.dropWhile (fun c => ¬ isPyWs c)).dropWhile isPyWs
    if rest = [] then [tok] else [tok, rest]

def popN : Nat → List (List Char) → List (List Char)
  | 0, l => l
  | n + 1, l => popN n l.dropLast

structure TreeSt where
  items : List (List Char)
  stack : List (List Char)
  prev : Int

def treeLineStep (st : TreeSt) (line : List Char) : TreeSt :=
  if trimL line = [] then st
  else
    let indent_level : Nat :=
      if scanContains ("   ".toList) line then count3sp line
      else if scanContains ("    ".toList) line ∧
          (scanContains ([' ']) line ∨ scanContains ([' ']) line) then
        (line.length - (line.dropWhile (fun c => c = ' ')).length) / 4
      else 0
    let clean_line := line.filter (fun c => c ≠ ' ')
    let parts := splitNone1 (trimL clean_line)
    let path := parts.headD []
    let description := if parts.length > 1 then parts.getD 1 [] else []
    let is_dir := path.getLast? = some '/'
    let stack1 :=
      if (indent_level : Int) > st.prev then
        if st.stack ≠ [] ∧ st.prev ≥ 0 then st.stack ++ [(st.stack.getLast?).getD []]
        else st.stack
      else if (indent_level : Int) < st.prev then popN (st.prev - indent_level).toNat st.stack
      else st.stack
    let item0 := List.replicate (2 * indent_level) ' ' ++ ("* ".toList)
    if is_dir then
      let dir_name := (path.reverse.dropWhile (fun c => c = '/')).reverse
      let item := if dir_name = ("basilisk/src".toList)
        then item0 ++ ("**".toList) ++ path ++ ("** - ".toList) ++ description
        else item0 ++ ("**[".toList) ++ path ++ ("](".toList) ++ dir_name
          ++ (")** - ".toList) ++ description
      let stack2 := if stack1.length ≤ indent_level then stack1 ++ [dir_name]
        else stack1.set indent_level dir_name
      { items := st.items ++ [item], stack := stack2, prev := (indent_level : Int) }
    else
      let parent_path := if 0 < indent_level ∧ stack1 ≠ [] then stack1.getD (indent_level - 1) []
        else []
      let file_path := (if parent_path ≠ [] then parent_path ++ '/' :: path else path).dropWhile
        (fun c => c = '/')
      let item := item0 ++ ("**[".toList) ++ path ++ ("](".toList) ++ file_path
        ++ (".html)** - ".toList) ++ description
      { items := st.items ++ [item], stack := stack1, prev := (indent_level : Int) }

def joinWithL (sep : Char) : List (List Char) → List Char
  | [] => []
  | [x] => x
  | x :: xs => x ++ sep :: joinWithL sep xs

def convert_directory_tree_to_html (readme : String) : String :=
  match treeSearch readme.toList with
  | none => readme
  | some (p, g, e, m) =>
    let s := readme.toList
    let tree_text := (s.drop g).take (e - g)
    let whole := (s.drop p).take (m - p)
    let lines := splitLinesL tree_text
    let final := lines.foldl treeLineStep ⟨[], [], -1⟩
    let html_structure := ("<div class=\"repository-structure\">".toList)
      :: final.items ++ [("</div>".toList)]
    let html_tree := joinWithL '\n' html_structure
    String.mk (replaceAllGo whole html_tree s.length s)

/-! ## `extract_seo_metadata`, description flow (generate_docs.py lines 42-133)

The embedding follows the description field through the function: the
embedded-metadata path (lines 57-71), the heuristic first-paragraph path
(lines 73-86), the default description (lines 113-117) and the final
attribute-safety pass (lines 119-127).  Keyword extraction (lines 88-111)
is independent of the description and not needed by any checked property.

The embedded JSON comment is parsed by a parser for the §6 wire format: a
flat object with string keys and string values (which is what
`process_jupyter_notebook` line 484 emits via `json.dumps`).  Python's
`json.loads` accepts more shapes; a non-object document makes the source
fall through to the heuristic path exactly as a parse failure does here.
An object carrying a non-string `description` would drive the source into
a caught `TypeError` and is outside this model. -/

/-- JSON whitespace. -/
def isJsonWs (c : Char) : Bool :=
  c = ' ' || c = '\t' || c = '\n' || c = '\r'

/-- Value of a hexadecimal digit, or 16 for a non-digit. -/
def hexVal (c : Char) : Nat :=
  if '0' ≤ c ∧ c ≤ '9' then c.toNat - 48
  else if 'a' ≤ c ∧ c ≤ 'f' then c.toNat - 87
  else if 'A' ≤ c ∧ c ≤ 'F' then c.toNat - 55
  else 16

/-- Parse a JSON string body (after the opening quote); returns the decoded
value and the remainder after the closing quote.  `\uXXXX` escapes are
decoded for scalar values; surrogate pairs are out of scope. -/
def parseJsonString : List Char → Option (List Char × List Char)
  | [] => none
  | '"' :: rest => some ([], rest)
  | '\\' :: 'u' :: h1 :: h2 :: h3 :: h4 :: rest =>
    let code := ((hexVal h1 * 16 + hexVal h2) * 16 + hexVal h3) * 16 + hexVal h4
    if hexVal h1 < 16 ∧ hexVal h2 < 16 ∧ hexVal h3 < 16 ∧ hexVal h4 < 16 ∧
        (code < 55296 ∨ 57344 ≤ code) then
      match parseJsonString rest with
      | none => none
      | some (v, r) => some (Char.ofNat code :: v, r)
    else none
  | '\\' :: e :: rest =>
    match (if e = '"' then some '"' else if e = '\\' then some '\\'
      else if e = '/' then some '/' else if e = 'b' then some '\x08'
      else if e = 'f' then some '\x0c' else if e = 'n' then some '\n'
      else if e = 'r' then some '\r' else if e = 't' then some '\t' else none) with
    | none => none
    | some c =>
      match parseJsonString rest with
      | none => none
      | some (v, r) => some (c :: v, r)
  | c :: rest =>
    match parseJsonString rest with
    | none => none
    | some (v, r) => some (c :: v, r)

/-- JSON leading-whitespace skip. -/
def skipJsonWs (l : List Char) : List Char :=
  l.dropWhile isJsonWs

/-- Member loop of the flat-object parser. -/
def parseMembers : Nat → List Char → List (String × String) →
    Option (List (String × String))
  | 0, _, _ => none
  | fuel + 1, l, acc =>
    match l with
    | '"' :: rest =>
      match parseJsonString rest with
      | none => none
      | some (key, rest2) =>
        match skipJsonWs rest2 with
        | ':' :: rest3 =>
          match skipJsonWs rest3 with
          | '"' :: rest4 =>
            match parseJsonString rest4 with
            | none => none
            | some (val, rest5) =>
              match skipJsonWs rest5 with
              | ',' :: rest6 =>
                parseMembers fuel (skipJsonWs rest6)
                  (acc ++ [(String.mk key, String.mk val)])
              | '}' :: rest7 =>
                if skipJsonWs rest7 = [] then
                  some (acc ++ [(String.mk key, String.mk val)])
                else none
              | _ => none
          | _ => none
        | _ => none
    | _ => none

/-- Parser for the embedded-metadata wire format of §6: one flat JSON
object with string keys and string values (`json.loads` + the
`isinstance(..., dict)` check of line 63). -/
def jsonParseObj (l : List Char) : Option (List (String × String)) :=
  match skipJsonWs l with
  | '{' :: rest =>
    match skipJsonWs rest with
    | '}' :: rest2 => if skipJsonWs rest2 = [] then some [] else none
    | other => parseMembers (l.length + 1) other []
  | _ => none

/-- The regex search `<!--SEO_METADATA:(.*?)-->` of line 58 (no DOTALL, so
the lazy group cannot span a newline): leftmost start, then the shortest
group closed by `-->` on the same line. -/
def seoSearch (s : List Char) : Option (List Char) :=
  (List.range (s.length + 1)).findSome? (fun p =>
    if ("<!--SEO_METADATA:".toList).isPrefixOf (s.drop p) then
      (List.range (s.length + 1)).findSome? (fun g =>
        if ((s.drop (p + 17)).take g).all (fun c => c ≠ '\n') ∧
            ("-->".toList).isPrefixOf (s.drop (p + 17 + g)) then
          some ((s.drop (p + 17)).take g)
        else none)
    else none)

/-- `re.sub(r'<[^>]*>', '', s)` (lines 67 and 122): each `<` that is
followed by a later `>` is removed together with everything up to that
first `>`; a `<` with no closing `>` is kept.  Fuel-driven (each step
consumes at least one character). -/
def stripTagsGo : Nat → List Char → List Char
  | 0, l => l
  | _ + 1, [] => []
  | n + 1, c :: cs =>
    if c = '<' ∧ cs.any (fun x => x = '>') then
      stripTagsGo n ((cs.dropWhile (fun x => x ≠ '>')).drop 1)
    else c :: stripTagsGo n cs

/-- `re.sub(r'<[^>]*>', '', s)`. -/
def stripTags (l : List Char) : List Char :=
  stripTagsGo l.length l

/-- `re.sub(r'["\'\\\<>]', '', s)` (line 68): drop quotes, apostrophes,
backslashes and angle brackets. -/
def removeEmbeddedBad (l : List Char) : List Char :=
  l.filter (fun c => ¬ (c = '"' ∨ c = '\'' ∨ c = '\\' ∨ c = '<' ∨ c = '>'))

/-- `re.sub(r'\s+', ' ', s)` (line 83): collapse whitespace runs to one
space.  Fuel-driven (each step consumes at least one character). -/
def collapseWsGo : Nat → List Char → List Char
  | 0, l => l
  | _ + 1, [] => []
  | n + 1, c :: cs =>
    if isPyWs c then ' ' :: collapseWsGo n (cs.dropWhile isPyWs)
    else c :: collapseWsGo n cs

/-- `re.sub(r'\s+', ' ', s)`. -/
def collapseWs (l : List Char) : List Char :=
  collapseWsGo l.length l

/-- The heuristic description regex of lines 74-75,
`^\s*#\s*(.*?)\s*$\s*([a-zA-Z].*?)(?=^\s*#|\Z)` with MULTILINE and DOTALL,
embedded with its backtracking priorities: start positions left to right at
line starts, greedy whitespace runs, lazy groups, and the lookahead
requiring the position of the next heading (or end of input). -/
def descSearch (s : List Char) : Option (List Char × List Char) :=
  (List.range (s.length + 1)).findSome? (fun p =>
    if ¬ (p = 0 ∨ (s.drop (p - 1)).head? = some '\n') then none
    else
      if (s.drop (p + wsRunLen (s.drop p))).head? ≠ some '#' then none
      else
        (List.range (wsRunLen (s.drop (p + wsRunLen (s.drop p) + 1)) + 1)).reverse.findSome?
          (fun w1 =>
            let g1s := p + wsRunLen (s.drop p) + 1 + w1
            (List.range (s.length - g1s + 1)).findSome? (fun g1len =>
              let e := g1s + g1len
              (List.range (wsRunLen (s.drop e) + 1)).reverse.findSome? (fun w2 =>
                let de := e + w2
                if ¬ (de = s.length ∨ (s.drop de).head? = some '\n') then none
                else
                  (List.range (wsRunLen (s.drop de) + 1)).reverse.findSome? (fun w3 =>
                    let g2s := de + w3
                    match (s.drop g2s).head? with
                    | some c =>
                      if c.isAlpha then
                        (List.range (s.length - g2s + 1)).findSome? (fun g2x =>
                          let g2e := g2s + 1 + g2x
                          if g2e ≤ s.length ∧ (g2e = s.length ∨
                              ((s.drop (g2e - 1)).head? = some '\n' ∧
                                (s.drop (g2e + wsRunLen (s.drop g2e))).head? = some '#')) then
                            some ((s.drop g1s).take g1len, (s.drop g2s).take (1 + g2x))
                          else none)
                      else none
                    | none => none)))))

/-- Does a line start with one of the tuple members of line 78,
`('```', '`', '#', '//')`? -/
def looksLikeCode (l : List Char) : Bool :=
  ("```".toList).isPrefixOf l || (['`'] : List Char).isPrefixOf l ||
    (['#'] : List Char).isPrefixOf l || ("//".toList).isPrefixOf l

/-- The heuristic first-paragraph description (lines 76-86), when the regex
matches: group 2 stripped (falling back to the stripped group 1 when empty
or code-looking), markup characters removed, whitespace collapsed,
stripped, truncated to 157 chars plus an ellipsis when over 160. -/
def heuristicDesc (content : List Char) : Option (List Char) :=
  (descSearch content).map (fun g =>
    let description := trimL g.2
    let description := if description = [] ∨ looksLikeCode description then trimL g.1
      else description
    let d1 := description.filter (fun c => ¬ (c = '#' ∨ c = '`' ∨ c = '*' ∨ c = '_'))
    let d2 := trimL (collapseWs d1)
    if d2.length > 160 then d2.take 157 ++ "...".toList else d2)

/-- The fallback description of lines 113-117, built from the file stem
with `_`/`-` turned into spaces and truncated to 160 characters. -/
def defaultDesc (stem : List Char) : List Char :=
  (("Documentation for ".toList)
    ++ stem.map (fun c => if c = '_' ∨ c = '-' then ' ' else c)
    ++ (" in the CoMPhy Lab computational fluid dynamics framework.".toList)).take 160

/-- The final attribute-safety pass of lines 119-127: strip HTML tags,
turn double quotes into single quotes, re-truncate to 157 chars plus an
ellipsis when over 160. -/
def finalizeDesc (d : List Char) : List Char :=
  let d2 := (stripTags d).map (fun c => if c = '"' then '\'' else c)
  if d2.length > 160 then d2.take 157 ++ "...".toList else d2

/-- Whether `extract_seo_metadata` takes the embedded-metadata early return
of lines 57-69 (a parsed metadata comment always wins). -/
def embeddedTaken (content : String) : Bool :=
  match seoSearch content.toList with
  | some j => (jsonParseObj j).isSome
  | none => false

/-- The `description` field of `extract_seo_metadata stem content`
(lines 42-133): the embedded path sanitizes the embedded description with
lines 67-68 and returns it (possibly absent); every other path produces one
— heuristic or default — and passes it through the final safety pass. -/
def extract_seo_description (stem : String) (content : String) : Option String :=
  match seoSearch content.toList with
  | some jsonSrc =>
    match jsonParseObj jsonSrc with
    | some obj =>
      -- lines 63-69: `metadata.update(...)`, sanitize, early return
      ((obj.reverse.find? (fun e => e.1 = "description")).map
        (fun e => String.mk (removeEmbeddedBad (stripTags e.2.toList))))
    | none =>
      -- line 70: parse error, fall through to the heuristic path
      some (String.mk (finalizeDesc
        ((heuristicDesc content.toList).getD (defaultDesc stem.toList))))
  | none =>
    some (String.mk (finalizeDesc
      ((heuristicDesc content.toList).getD (defaultDesc stem.toList))))

/-! ## Theorems for C7, C10, C8 -/

/-- C7: for every output path lying below the documentation root,
`calculate_asset_prefix` returns "." at depth 0 (a file directly in the
documentation root) and, for depth `N ≥ 1`, returns `N` copies of ".."
joined by "/". -/
theorem C7_asset_prefix_depth (docs parts : List String) (h : parts ≠ []) :
    calculate_asset_prefix (docs ++ parts) docs =
      if parts.length = 1 then "."
      else String.intercalate "/" (List.replicate (parts.length - 1) "..") := by
  unfold calculate_asset_prefix relative_to
  have hpre : docs.isPrefixOf (docs ++ parts) = true := by
    simp [List.isPrefixOf_iff_prefix]
  have hdrop : (docs ++ parts).drop docs.length = parts := by
    simp [List.drop_left]
  rcases List.exists_cons_of_ne_nil h with ⟨a, as, rfl⟩
  by_cases hone : (a :: as).length = 1
  · -- depth 0: both the index.html special case and the general branch give "."
    have has : as = [] := by
      simpa using hone
    subst has
    by_cases hidx : (docs ++ [a]).getLast? = some "index.html" ∧
        (docs ++ [a]).dropLast = docs
    · simp [hidx]
    · simp [hidx, hpre, hdrop]
  · -- depth ≥ 1: the index.html special case cannot fire
    have has : as ≠ [] := by
      intro hc; subst hc; simp at hone
    have hidx : ¬ ((docs ++ a :: as).getLast? = some "index.html" ∧
        (docs ++ a :: as).dropLast = docs) := by
      rintro ⟨-, h2⟩
      have : (docs ++ a :: as).dropLast = docs ++ (a :: as).dropLast := by
        rw [List.dropLast_append_of_ne_nil _ (by simp)]
      rw [this] at h2
      have hlen := congrArg List.length h2
      rw [List.length_append, List.length_dropLast, List.length_cons] at hlen
      have hpos : 0 < as.length := List.length_pos.mpr has
      omega
    have hdepth : ¬ ((((a :: as).length : Int) - 1) ≤ 0) := by
      have hpos : 0 < as.length := List.length_pos.mpr has
      simp only [List.length_cons]
      omega
    simp only [hidx, if_false, hpre, hdrop, if_true]
    simp only [if_neg hdepth, if_neg hone]
    congr 1
    have : (((a :: as).length : Int) - 1).toNat = (a :: as).length - 1 := by omega
    rw [this]

/-- Witness for C7 at depth 3. -/
theorem C7_witness :
    (["a", "b", "c", "x.html"] : List String) ≠ [] ∧
      calculate_asset_prefix ["docs", "a", "b", "c", "x.html"] ["docs"] = "../../.." := by
  refine ⟨by decide, ?_⟩
  have h := C7_asset_prefix_depth ["docs"] ["a", "b", "c", "x.html"] (by decide)
  simpa using h

/-- C10: `calculate_asset_prefix` is total over arbitrary path pairs — for
every output path that is not lexically below the documentation root it
returns "." (the `ValueError` of `relative_to` is caught) rather than
raising. -/
theorem C10_asset_prefix_total (output docs : List String)
    (h : docs.isPrefixOf output = false) :
    calculate_asset_prefix output docs = "." := by
  unfold calculate_asset_prefix relative_to
  have hidx : ¬ (output.getLast? = some "index.html" ∧ output.dropLast = docs) := by
    rintro ⟨h1, h2⟩
    have hne : output ≠ [] := by
      intro hc; subst hc; simp at h1
    have : output.dropLast ++ [output.getLast hne] = output :=
      List.dropLast_append_getLast hne
    rw [h2] at this
    have : docs.isPrefixOf output = true := by
      rw [← this]
      simp [List.isPrefixOf_iff_prefix]
    rw [h] at this
    exact Bool.false_ne_true this
  simp [hidx, h]

/-- Witness for C10: a path outside the documentation root. -/
theorem C10_witness :
    (["docs"] : List String).isPrefixOf ["other", "a.html"] = false ∧
      calculate_asset_prefix ["other", "a.html"] ["docs"] = "." := by
  refine ⟨by decide, ?_⟩
  exact C10_asset_prefix_total ["other", "a.html"] ["docs"] (by decide)

/-- C8: when the literate-conversion subprocess exits non-zero, produces
whitespace-only output, or the invocation itself raises, `process_c_file`
returns the fallback: a heading with the file name followed by the raw
source in a plain fenced `c` code block.  The embedding is a total function,
so conversion failure is absorbed and never raises. -/
theorem C8_literate_fallback (name content : String) (res : Option (Int × String))
    (h : res = none ∨ ∃ rc out, res = some (rc, out) ∧ (rc ≠ 0 ∨ trimS out = "")) :
    process_c_file name content res =
      "# " ++ name ++ "\n\n```c\n" ++ content ++ "\n```" := by
  rcases h with h | ⟨rc, out, rfl, h⟩
  · subst h; rfl
  · unfold process_c_file
    rcases h with h | h
    · simp [h]
    · simp [h]

/-- Witness for C8: a non-zero exit code with non-empty stderr-style output. -/
theorem C8_witness :
    process_c_file "flow.c" "int main(void);" (some (1, "error")) =
      "# flow.c\n\n```c\nint main(void);\n```" := by
  have h := C8_literate_fallback "flow.c" "int main(void);" (some (1, "error"))
    (Or.inr ⟨1, "error", rfl, Or.inl (by decide)⟩)
  simpa using h

/-- Every registry key of a run is the source path of some job of the batch. -/
theorem pipeline_reg_sources (force : Bool) (postStale : String → String)
    (jobs : List Job) (st : PipeState) (x : String × String)
    (hx : x ∈ (jobs.foldl (pipelineStep force postStale) st).reg) :
    x ∈ st.reg ∨ x.1 ∈ jobs.map Job.src := by
  induction jobs generalizing st with
  | nil => exact Or.inl (by simpa using hx)
  | cons j rest ih =>
    simp only [List.foldl_cons] at hx
    rcases ih _ hx with h | h
    · have hmem : x ∈ st.reg ∨ x = (j.src, j.out) := by
        unfold pipelineStep at h
        split at h
        · rcases List.mem_append.mp h with h1 | h1
          · exact Or.inl h1
          · exact Or.inr (by simpa using h1)
        · split at h
          next =>
            rcases List.mem_append.mp h with h1 | h1
            · exact Or.inl h1
            · exact Or.inr (by simpa using h1)
          next =>
            exact Or.inl h
      rcases hmem with h1 | h1
      · exact Or.inl h1
      · right
        simp only [List.map_cons, List.mem_cons]
        exact Or.inl (by rw [h1])
    · right; simp [h]


/-- A step for a job with a different output path does not change what is
read at path `p`. -/
theorem pipelineStep_fsGet_ne (force : Bool) (postStale : String → String)
    (st : PipeState) (j : Job) (p : String) (hne : j.out ≠ p) :
    fsGet (pipelineStep force postStale st j).fs p = fsGet st.fs p := by
  unfold pipelineStep processFile
  split
  · rfl
  · split
    next heq =>
      split at heq
      · cases heq
        simp [fsGet, fsWrite, List.find?, hne]
      · split at heq
        · cases heq
        · cases heq
          simp [fsGet, fsWrite, List.find?, hne]
    next heq =>
      split at heq
      · cases heq
      · split at heq
        · cases heq; rfl
        · cases heq

/-- Folding jobs whose output paths all differ from `p` preserves the read
at `p`. -/
theorem pipeline_foldl_fsGet_ne (force : Bool) (postStale : String → String)
    (jobs : List Job) (st : PipeState) (p : String)
    (h : ∀ j ∈ jobs, j.out ≠ p) :
    fsGet ((jobs.foldl (pipelineStep force postStale) st).fs) p = fsGet st.fs p := by
  induction jobs generalizing st with
  | nil => rfl
  | cons j rest ih =>
    simp only [List.foldl_cons]
    rw [ih _ (fun j' hj' => h j' (List.mem_cons_of_mem _ hj'))]
    exact pipelineStep_fsGet_ne force postStale st j p (h j (List.mem_cons_self _ _))

/-- Registry entries are never removed by a step. -/
theorem pipelineStep_reg_mono (force : Bool) (postStale : String → String)
    (st : PipeState) (j : Job) (x : String × String) (hx : x ∈ st.reg) :
    x ∈ (pipelineStep force postStale st j).reg := by
  unfold pipelineStep
  split
  · exact List.mem_append_left _ hx
  · split
    · exact List.mem_append_left _ hx
    · exact hx

/-- Registry entries are never removed by the loop. -/
theorem pipeline_foldl_reg_mono (force : Bool) (postStale : String → String)
    (jobs : List Job) (st : PipeState) (x : String × String) (hx : x ∈ st.reg) :
    x ∈ (jobs.foldl (pipelineStep force postStale) st).reg := by
  induction jobs generalizing st with
  | nil => exact hx
  | cons j rest ih =>
    exact ih _ (pipelineStep_reg_mono force postStale st j x hx)

/-- A job whose pandoc invocation fails, and whose output file does not
exist when it is reached, leaves the pipeline state unchanged. -/
theorem pipelineStep_of_fail (force : Bool) (postStale : String → String)
    (st : PipeState) (j : Job) (hfail : j.pandocOk = false)
    (hget : fsGet st.fs j.out = none) :
    pipelineStep force postStale st j = st := by
  unfold pipelineStep processFile
  rw [hfail, hget]
  simp

/-- Force-rebuild cleaning deletes every `*.html` path. -/
theorem fsGet_cleanDocs_html (fs : FS) (p : String)
    (hp : p.endsWith ".html" = true) :
    fsGet (cleanDocs true fs) p = none := by
  unfold cleanDocs fsGet
  simp only [if_pos rfl]
  induction fs with
  | nil => rfl
  | cons e rest ih =>
    by_cases he : e.1.endsWith ".html"
    · simp only [List.filter_cons, he]
      simpa using ih
    · simp only [List.filter_cons, he]
      simp only [Bool.not_false, List.find?]
      have hne : (e.1 = p) = False := by
        simp only [eq_iff_iff, iff_false]
        intro hc
        rw [hc] at he
        exact he hp
      simp only [hne, decide_False]
      simpa using ih

/-- C2: a file whose pandoc invocation exits non-zero is marked failed and
excluded from the `generated_files` registry, and the per-file loop
continues with the remaining files exactly as if the failed file were not
in the batch (`run_pandoc` logs the error and returns early, the re-open of
the missing output file raises, the exception is caught, `main` skips the
registry insertion).  The hypothesis `hreach` states that the file is
actually converted rather than skipped: under force-rebuild its output was
deleted up front, otherwise its output did not exist. -/
theorem C2_pandoc_failure_excluded (force : Bool) (postStale : String → String)
    (pre rest : List Job) (j : Job) (fs0 : FS)
    (hfail : j.pandocOk = false)
    (hpre : ∀ j' ∈ pre, j'.out ≠ j.out)
    (hreach : if force then j.out.endsWith ".html" = true else fsGet fs0 j.out = none)
    (hsrc : j.src ∉ (pre ++ rest).map Job.src) :
    pipelineRun force postStale (pre ++ j :: rest) fs0 =
        pipelineRun force postStale (pre ++ rest) fs0 ∧
      j.src ∉ (pipelineRun force postStale (pre ++ j :: rest) fs0).reg.map Prod.fst := by
  have hinit : fsGet (cleanDocs force fs0) j.out = none := by
    cases force with
    | true => exact fsGet_cleanDocs_html fs0 j.out (by simpa using hreach)
    | false => simpa [cleanDocs] using hreach
  have hst1 :
      fsGet ((pre.foldl (pipelineStep force postStale) ⟨[], cleanDocs force fs0⟩).fs) j.out
        = none := by
    rw [pipeline_foldl_fsGet_ne force postStale pre _ j.out hpre]
    exact hinit
  have hstep :
      pipelineStep force postStale
          (pre.foldl (pipelineStep force postStale) ⟨[], cleanDocs force fs0⟩) j
        = pre.foldl (pipelineStep force postStale) ⟨[], cleanDocs force fs0⟩ :=
    pipelineStep_of_fail force postStale _ j hfail hst1
  have heq : pipelineRun force postStale (pre ++ j :: rest) fs0 =
      pipelineRun force postStale (pre ++ rest) fs0 := by
    unfold pipelineRun
    rw [List.foldl_append, List.foldl_append, List.foldl_cons, hstep]
  refine ⟨heq, ?_⟩
  rw [heq]
  intro hmem
  rcases List.mem_map.mp hmem with ⟨x, hx, hx1⟩
  rcases pipeline_reg_sources force postStale (pre ++ rest) _ x hx with h | h
  · simp at h
  · rw [hx1] at h
    exact hsrc h

/-- Witness for C2: a three-file batch whose middle file fails pandoc;
the run equals the run on the two good files and the failed source is
absent from the registry. -/
theorem C2_witness :
    pipelineRun false (fun s => s)
          [⟨"a.py", "a.py.html", "A", true⟩, ⟨"b.c", "b.c.html", "B", false⟩,
            ⟨"c.sh", "c.sh.html", "C", true⟩] [] =
        pipelineRun false (fun s => s)
          [⟨"a.py", "a.py.html", "A", true⟩, ⟨"c.sh", "c.sh.html", "C", true⟩] [] ∧
      "b.c" ∉ (pipelineRun false (fun s => s)
          [⟨"a.py", "a.py.html", "A", true⟩, ⟨"b.c", "b.c.html", "B", false⟩,
            ⟨"c.sh", "c.sh.html", "C", true⟩] []).reg.map Prod.fst := by
  have h := C2_pandoc_failure_excluded false (fun s => s)
    [⟨"a.py", "a.py.html", "A", true⟩] [⟨"c.sh", "c.sh.html", "C", true⟩]
    ⟨"b.c", "b.c.html", "B", false⟩ []
    rfl (by decide) (by simp [fsGet]) (by decide)
  simpa using h

/-- With force-rebuild disabled, a job whose output file already exists is
registered without any conversion or write. -/
theorem pipelineStep_skip (postStale : String → String) (st : PipeState) (j : Job)
    (hsome : (fsGet st.fs j.out).isSome = true) :
    pipelineStep false postStale st j = { st with reg := st.reg ++ [(j.src, j.out)] } := by
  unfold pipelineStep
  rw [hsome]
  rfl

/-- C9: with force-rebuild disabled, a source file whose output already
exists is skipped — no write to that output path happens (its content is
left unchanged) — and the source→output pair is still inserted into the
`generated_files` registry consumed by the final index generation. -/
theorem C9_incremental_skip (postStale : String → String)
    (pre rest : List Job) (j : Job) (fs0 : FS) (c : String)
    (hget : fsGet fs0 j.out = some c)
    (hpre : ∀ j' ∈ pre, j'.out ≠ j.out)
    (hrest : ∀ j' ∈ rest, j'.out ≠ j.out) :
    fsGet (pipelineRun false postStale (pre ++ j :: rest) fs0).fs j.out = some c ∧
      (j.src, j.out) ∈ (pipelineRun false postStale (pre ++ j :: rest) fs0).reg := by
  have hinit : fsGet (cleanDocs false fs0) j.out = some c := by simpa [cleanDocs] using hget
  have hst1 :
      fsGet ((pre.foldl (pipelineStep false postStale) ⟨[], cleanDocs false fs0⟩).fs) j.out
        = some c := by
    rw [pipeline_foldl_fsGet_ne false postStale pre _ j.out hpre]
    exact hinit
  have hstep : pipelineStep false postStale
      (pre.foldl (pipelineStep false postStale) ⟨[], cleanDocs false fs0⟩) j =
      { pre.foldl (pipelineStep false postStale) ⟨[], cleanDocs false fs0⟩ with
        reg := (pre.foldl (pipelineStep false postStale) ⟨[], cleanDocs false fs0⟩).reg
          ++ [(j.src, j.out)] } :=
    pipelineStep_skip postStale _ j (by rw [hst1]; rfl)
  constructor
  · unfold pipelineRun
    rw [List.foldl_append, List.foldl_cons, hstep]
    rw [pipeline_foldl_fsGet_ne false postStale rest _ j.out hrest]
    exact hst1
  · unfold pipelineRun
    rw [List.foldl_append, List.foldl_cons, hstep]
    exact pipeline_foldl_reg_mono false postStale rest _ (j.src, j.out)
      (List.mem_append_right _ (List.mem_singleton.mpr rfl))

/-- Witness for C9: the middle file's output pre-exists with content "OLD";
after the run it still reads "OLD" and the pair is registered. -/
theorem C9_witness :
    fsGet (pipelineRun false (fun s => s)
        [⟨"a.py", "a.py.html", "A", true⟩, ⟨"b.c", "b.c.html", "B", true⟩]
        [("b.c.html", "OLD")]).fs "b.c.html" = some "OLD" ∧
      ("b.c", "b.c.html") ∈ (pipelineRun false (fun s => s)
        [⟨"a.py", "a.py.html", "A", true⟩, ⟨"b.c", "b.c.html", "B", true⟩]
        [("b.c.html", "OLD")]).reg := by
  have h := C9_incremental_skip (fun s => s)
    [⟨"a.py", "a.py.html", "A", true⟩] [] ⟨"b.c", "b.c.html", "B", true⟩
    [("b.c.html", "OLD")] "OLD" (by simp [fsGet, List.find?]) (by decide) (by decide)
  simpa using h


/-- C6 (code bug): the copy-button guard looks for the literal
`class="copy-button"`, but the script it inserts only ever writes
`button.className = 'copy-button'`, so after one injection the marker is
still absent and a second pass inserts the script again — copy-button
injection is not idempotent, contradicting both the spec's idempotence
requirement and the function's own prior-injection guard. -/
theorem C6_copy_button_not_idempotent :
    containsSub (insert_javascript_in_html samplePage) "class=\"copy-button\"" = false ∧
      insert_javascript_in_html (insert_javascript_in_html samplePage) ≠
        insert_javascript_in_html samplePage := by
  refine ⟨by decide, ?_⟩
  intro h
  have h1 : containsSub (insert_javascript_in_html (insert_javascript_in_html samplePage))
      doubledScriptJunction = true := by decide
  have h2 : containsSub (insert_javascript_in_html samplePage)
      doubledScriptJunction = false := by decide
  rw [h, h2] at h1
  exact Bool.false_ne_true h1

/-- A list whose head fails the predicate is untouched by `dropWhile`;
extracting the head fact from such an equation. -/
theorem head_not_ws_of_dropWhile_eq {c : Char} {cs : List Char}
    (ht : (c :: cs).dropWhile isPyWs = c :: cs) : isPyWs c = false := by
  by_contra h
  have h' : isPyWs c = true := by simpa using h
  rw [List.dropWhile_cons_of_pos h'] at ht
  have hlen := congrArg List.length ht
  have hle : (cs.dropWhile isPyWs).length ≤ cs.length :=
    (List.dropWhile_suffix isPyWs).sublist.length_le
  simp only [List.length_cons] at hlen
  omega

/-- `dropWhile` is idempotent. -/
theorem dropWhile_isPyWs_idem (l : List Char) :
    (l.dropWhile isPyWs).dropWhile isPyWs = l.dropWhile isPyWs := by
  induction l with
  | nil => simp
  | cons c cs ih =>
    by_cases h : isPyWs c = true
    · rw [List.dropWhile_cons_of_pos h]; exact ih
    · rw [List.dropWhile_cons_of_neg (by simp [h]), List.dropWhile_cons_of_neg (by simp [h])]

/-- A prefix of a `dropWhile`-stable list is itself `dropWhile`-stable. -/
theorem dropWhile_eq_of_prefix {p m : List Char} (hp : p <+: m)
    (hm : m.dropWhile isPyWs = m) : p.dropWhile isPyWs = p := by
  cases p with
  | nil => simp
  | cons c cs =>
    rcases hp with ⟨t, rfl⟩
    have hc : isPyWs c = false := head_not_ws_of_dropWhile_eq hm
    exact List.dropWhile_cons_of_neg (by simp [hc])

/-- The right trim is a prefix of the original list. -/
theorem rightTrim_prefix (m : List Char) :
    (m.reverse.dropWhile isPyWs).reverse <+: m := by
  have h : m.reverse.dropWhile isPyWs <:+ m.reverse := List.dropWhile_suffix isPyWs
  have h2 := List.reverse_prefix.mpr h
  simpa using h2

/-- `trimL` of a `dropWhile`-stable list is a prefix of it. -/
theorem trimL_prefix_of_stable {m : List Char} (hm : m.dropWhile isPyWs = m) :
    trimL m <+: m := by
  unfold trimL
  rw [hm]
  exact rightTrim_prefix m

/-- `trimL l` carries no leading whitespace. -/
theorem trimL_stable (l : List Char) : (trimL l).dropWhile isPyWs = trimL l := by
  have h1 : trimL l <+: l.dropWhile isPyWs := by
    unfold trimL
    exact rightTrim_prefix _
  exact dropWhile_eq_of_prefix h1 (dropWhile_isPyWs_idem l)

/-- A fence prefix survives along list prefixes. -/
theorem fenceLine_of_prefix {p t : List Char} (hp : p <+: t)
    (h : fenceLine p = true) : fenceLine t = true := by
  unfold fenceLine at h ⊢
  exact List.isPrefixOf_iff_prefix.mpr ((List.isPrefixOf_iff_prefix.mp h).trans hp)

/-- A line that begins with a fence still begins with one after stripping. -/
theorem fenceLine_trimL {l : List Char} (h : fenceLine l = true) :
    fenceLine (trimL l) = true := by
  obtain ⟨rest, rfl⟩ : ∃ rest, l = '`' :: '`' :: '`' :: rest := by
    rcases List.isPrefixOf_iff_prefix.mp h with ⟨t, ht⟩
    exact ⟨t, by simpa using ht.symm⟩
  unfold trimL
  rw [List.dropWhile_cons_of_neg (by decide)]
  rw [show ('`' :: '`' :: '`' :: rest).reverse = rest.reverse ++ ['`', '`', '`'] by simp]
  rw [List.dropWhile_append]
  by_cases he : (rest.reverse.dropWhile isPyWs).isEmpty = true
  · rw [if_pos he]
    decide
  · rw [if_neg (by simp_all)]
    rw [List.reverse_append]
    unfold fenceLine
    apply List.isPrefixOf_iff_prefix.mpr
    exact ⟨(rest.reverse.dropWhile isPyWs).reverse, rfl⟩

/-- Number of fence lines distributes over concatenation. -/
theorem countFences_append (a b : List (List Char)) :
    countFences (a ++ b) = countFences a + countFences b :=
  List.countP_append _ _ _

/-- A block with no fence line contributes no fences. -/
theorem countFences_eq_zero {ls : List (List Char)}
    (h : ∀ l ∈ ls, fenceLine l = false) : countFences ls = 0 :=
  List.countP_eq_zero.mpr (by simpa using h)

/-- Taking a prefix of an already stripped non-fence line and restripping
never produces a fence line. -/
theorem fence_trim_take_false {t : List Char} (ht : t.dropWhile isPyWs = t)
    (hf : fenceLine t = false) (k : Nat) : fenceLine (trimL (t.take k)) = false := by
  by_contra h
  have h' : fenceLine (trimL (t.take k)) = true := by simpa using h
  have hst : (t.take k).dropWhile isPyWs = t.take k :=
    dropWhile_eq_of_prefix (List.take_prefix k t) ht
  have hpre : trimL (t.take k) <+: t :=
    (trimL_prefix_of_stable hst).trans (List.take_prefix k t)
  have hft := fenceLine_of_prefix hpre h'
  simp [hf] at hft

/-- A line that strips to nothing is not a fence line. -/
theorem fenceLine_false_of_trim_nil {l : List Char} (h : trimL l = []) :
    fenceLine l = false := by
  by_contra hc
  have hc' : fenceLine l = true := by simpa using hc
  have := fenceLine_trimL hc'
  rw [h] at this
  exact absurd this (by decide)

/-- Cleaning a buffered docstring line (one that neither opens nor closes a
docstring and does not strip to a fence) never yields a fence line. -/
theorem cleanDocLine_no_fence {l d : List Char} (hq : quoteStart l = false)
    (hf : fenceLine (trimL l) = false) (hd : cleanDocLine l = some d) :
    fenceLine d = false := by
  unfold cleanDocLine at hd
  split at hd
  · exact absurd hd (by simp)
  · have hq' : ("\"\"\"".toList.isPrefixOf (trimL l)
        || "'''".toList.isPrefixOf (trimL l)) = false := hq
    simp only [hq', Bool.false_eq_true, if_false] at hd
    have ht : (trimL l).dropWhile isPyWs = trimL l := trimL_stable l
    by_cases hsuf : (("\"\"\"".toList).isSuffixOf (trimL l)
        || ("'''".toList).isSuffixOf (trimL l)) = true
    · rw [if_pos hsuf] at hd
      rw [← Option.some_inj.mp hd]
      exact fence_trim_take_false ht hf _
    · rw [if_neg hsuf] at hd
      rw [← Option.some_inj.mp hd]
      have := fence_trim_take_false ht hf (trimL l).length
      rwa [List.take_length] at this

/-- The loop body preserves the invariant on input lines that do not strip
to a fence line. -/
theorem pyStep_inv (st : PyState) (line : List Char) (hinv : PyInv st)
    (hline : fenceLine (trimL line) = false) : PyInv (pyStep st line) := by
  obtain ⟨h1, h2, h3⟩ := hinv
  unfold pyStep
  by_cases hq : quoteStart line = true
  · rw [if_pos hq]
    by_cases hdoc : st.inDoc = true
    · rw [if_pos hdoc]
      refine ⟨?_, h2, by simp⟩
      have hclean : ∀ d ∈ cleanDocstring st.docBuf, fenceLine d = false := by
        intro d hdmem
        rcases List.mem_filterMap.mp hdmem with ⟨l, hl, hdl⟩
        exact cleanDocLine_no_fence (h3 l hl).2 (h3 l hl).1 hdl
      by_cases hcl : cleanDocstring st.docBuf ≠ []
      · rw [if_pos hcl]
        simp only [countFences_append]
        rw [countFences_eq_zero hclean]
        have hnil : countFences [([] : List Char)] = 0 :=
          countFences_eq_zero (by intro l hl; simp at hl; simp [hl, fenceLine])
        rw [hnil]
        simpa using h1
      · rw [if_neg hcl]
        exact h1
    · rw [if_neg hdoc]
      by_cases hcode : st.inCode = true
      · rw [if_pos hcode]
        refine ⟨?_, by simp, by simp⟩
        simp only [countFences_append]
        rw [countFences_eq_zero h2]
        have hpy : countFences ["```python".toList] = 1 := by decide
        have hcl : countFences ["```".toList] = 1 := by decide
        rw [hpy, hcl]
        rcases h1 with ⟨k, hk⟩
        exact ⟨k + 1, by omega⟩
      · rw [if_neg hcode]
        exact ⟨h1, h2, h3⟩
  · rw [if_neg hq]
    by_cases hdoc : st.inDoc = true
    · rw [if_pos hdoc]
      refine ⟨h1, h2, ?_⟩
      intro l hl
      rcases List.mem_append.mp hl with hl | hl
      · exact h3 l hl
      · have : l = line := by simpa using hl
        subst this
        exact ⟨hline, by simpa using hq⟩
    · rw [if_neg hdoc]
      by_cases hstart : (¬ st.inCode = true ∧ trimL line ≠ [])
      · rw [if_pos hstart]
        refine ⟨h1, ?_, h3⟩
        intro l hl
        rcases List.mem_append.mp hl with hl | hl
        · exact h2 l hl
        · have : l = line := by simpa using hl
          subst this
          by_contra hc
          have hc' : fenceLine l = true := by simpa using hc
          have := fenceLine_trimL hc'
          simp [hline] at this
      · rw [if_neg hstart]
        by_cases hcode : st.inCode = true
        · rw [if_pos hcode]
          refine ⟨h1, ?_, h3⟩
          intro l hl
          rcases List.mem_append.mp hl with hl | hl
          · exact h2 l hl
          · have : l = line := by simpa using hl
            subst this
            by_contra hc
            have hc' : fenceLine l = true := by simpa using hc
            have := fenceLine_trimL hc'
            simp [hline] at this
        · rw [if_neg hcode]
          refine ⟨?_, h2, h3⟩
          have hblank : trimL line = [] := by
            by_contra hbl
            exact hstart ⟨by simpa using hcode, hbl⟩
          simp only [countFences_append]
          have hz : countFences [line] = 0 := countFences_eq_zero (by
            intro l hl
            have : l = line := by simpa using hl
            subst this
            exact fenceLine_false_of_trim_nil hblank)
          rw [hz]
          simpa using h1

/-- Closing at end of input preserves evenness. -/
theorem pyFinish_even (st : PyState) (hinv : PyInv st) :
    Even (countFences (pyFinish st)) := by
  obtain ⟨h1, h2, h3⟩ := hinv
  unfold pyFinish
  have hdocraw : ∀ l ∈ st.docBuf, fenceLine l = false := by
    intro l hl
    by_contra hc
    have hc' : fenceLine l = true := by simpa using hc
    have := fenceLine_trimL hc'
    simp [(h3 l hl).1] at this
  by_cases hcode : st.inCode = true
  · rw [if_pos hcode]
    have heven : Even (countFences
        (st.processed ++ ["```python".toList] ++ st.codeBuf ++ ["```".toList])) := by
      simp only [countFences_append]
      rw [countFences_eq_zero h2]
      have hpy : countFences ["```python".toList] = 1 := by decide
      have hcl : countFences ["```".toList] = 1 := by decide
      rw [hpy, hcl]
      rcases h1 with ⟨k, hk⟩
      exact ⟨k + 1, by omega⟩
    by_cases hdoc : st.inDoc = true
    · rw [if_pos hdoc]
      simp only [countFences_append]
      rw [countFences_eq_zero hdocraw]
      have hnil : countFences [([] : List Char)] = 0 := by decide
      rw [hnil]
      simp only [countFences_append] at heven
      simpa using heven
    · rw [if_neg hdoc]
      exact heven
  · rw [if_neg hcode]
    by_cases hdoc : st.inDoc = true
    · rw [if_pos hdoc]
      simp only [countFences_append]
      rw [countFences_eq_zero hdocraw]
      have hnil : countFences [([] : List Char)] = 0 := by decide
      rw [hnil]
      simpa using h1
    · rw [if_neg hdoc]
      exact h1

/-- C4 (amended): for every Python source none of whose lines itself begins
with three backticks after stripping, `process_python_file` emits a balanced
(even) number of fence lines — in particular a file ending inside a run of
code lines or inside an unclosed docstring still has its open construct
closed at end of input, with no unterminated fence.  (The restriction is
forced by `C4_counterexample`: a source line that is itself a fence line is
copied verbatim into the fenced output and breaks the count.)
`process_python_file` is by definition the newline-join of
`process_python_lines` on the newline-split content. -/
theorem C4_balanced_fences_amended (content : String)
    (h : ∀ l ∈ splitLines content, fenceLine (trimL l) = false) :
    Even (countFences (process_python_lines (splitLines content))) ∧
      process_python_file content =
        String.intercalate "\n" ((process_python_lines (splitLines content)).map String.mk) := by
  refine ⟨?_, rfl⟩
  unfold process_python_lines
  have hgen : ∀ (lines : List (List Char)) (st : PyState), PyInv st →
      (∀ l ∈ lines, fenceLine (trimL l) = false) →
      PyInv (lines.foldl pyStep st) := by
    intro lines
    induction lines with
    | nil => intro st hst _; exact hst
    | cons a as ih =>
      intro st hst hall
      simp only [List.foldl_cons]
      exact ih _ (pyStep_inv st a hst (hall a (List.mem_cons_self _ _)))
        (fun l hl => hall l (List.mem_cons_of_mem _ hl))
  have hinv0 : PyInv ⟨[], false, [], false, []⟩ := ⟨by decide, by simp, by simp⟩
  exact pyFinish_even _ (hgen _ _ hinv0 h)

/-- Witness for C4: a source that ends inside a run of code lines; the
EOF-close produces a balanced pair of fences. -/
theorem C4_witness :
    Even (countFences (process_python_lines (splitLines "x = 1\ny = 2"))) ∧
      process_python_file "x = 1\ny = 2" = "```python\nx = 1\ny = 2\n```" := by
  refine ⟨(C4_balanced_fences_amended "x = 1\ny = 2" (by decide)).1, rfl⟩

/-- C4 counterexample to the claim as stated: the single-line source "```"
ends inside a run of code lines, yet the output carries three fence lines —
an odd, unbalanced number — because the code line is itself a fence line and
is copied verbatim between the two fences added at end of input. -/
theorem C4_counterexample :
    process_python_file "```" = "```python\n```\n```" ∧
      ¬ Even (countFences (process_python_lines (splitLines "```"))) := by
  exact ⟨rfl, by decide⟩

/-- The basename accumulator never contains a slash. -/
theorem basename_foldl_no_slash (l : List Char) (acc : List Char) (hacc : '/' ∉ acc) :
    '/' ∉ l.foldl (fun acc c => if c = '/' then [] else acc ++ [c]) acc := by
  induction l generalizing acc with
  | nil => simpa using hacc
  | cons c cs ih =>
    simp only [List.foldl_cons]
    by_cases hc : c = '/'
    · rw [if_pos hc]; exact ih [] (by simp)
    · rw [if_neg hc]
      refine ih _ ?_
      intro hmem
      rcases List.mem_append.mp hmem with h | h
      · exact hacc h
      · simp only [List.mem_singleton] at h
        exact hc h.symm

/-- `filename.split('/')[-1]` never contains a slash. -/
theorem basenameL_no_slash (l : List Char) : '/' ∉ basenameL l :=
  basename_foldl_no_slash l [] (by simp)

/-- `with_suffix(current_suffix + '.html')` is exactly appending `.html`. -/
theorem pyWithSuffix_suffix_html (s : String) :
    pyWithSuffix s (pySuffix s ++ ".html") = s ++ ".html" := by
  unfold pyWithSuffix pyStem pySuffix
  rw [← String.append_assoc]
  congr 1
  calc String.mk (s.toList.take (pyDotIdx s.toList))
        ++ String.mk (s.toList.drop (pyDotIdx s.toList))
      = String.mk (s.toList.take (pyDotIdx s.toList)
        ++ s.toList.drop (pyDotIdx s.toList)) := rfl
    _ = String.mk s.toList := by rw [List.take_append_drop]
    _ = s := rfl

/-- Common prefix length below a shared leading path. -/
theorem commonPrefixLen_same_append (r a b : List String) :
    commonPrefixLen (r ++ a) (r ++ b) = r.length + commonPrefixLen a b := by
  induction r with
  | nil => simp
  | cons x xs ih =>
    simp only [List.cons_append]
    have hstep : commonPrefixLen (x :: (xs ++ a)) (x :: (xs ++ b))
        = 1 + commonPrefixLen (xs ++ a) (xs ++ b) := by
      show (if x = x then 1 + commonPrefixLen (xs ++ a) (xs ++ b) else 0) = _
      rw [if_pos rfl]
    rw [hstep, ih, List.length_cons]
    omega

/-- Shape of `os.path.relpath` for the include-link target: the target
descends from the repository root into `docs/src-local`, the start is the
source file's directory `repo_root ++ dirs` with `dirs` not itself starting
at `docs`. -/
theorem pyRelpath_docs (repo : List String) (d : String) (ds : List String) (f' : String)
    (hd : d ≠ "docs") :
    pyRelpath (repo ++ ["docs", "src-local", f']) (repo ++ d :: ds) =
      List.replicate (d :: ds).length ".." ++ ["docs", "src-local", f'] := by
  unfold pyRelpath
  have hc : commonPrefixLen (repo ++ ["docs", "src-local", f']) (repo ++ d :: ds)
      = repo.length := by
    rw [commonPrefixLen_same_append]
    have h0 : commonPrefixLen ["docs", "src-local", f'] (d :: ds) = 0 := by
      show (if "docs" = d then 1 + commonPrefixLen ["src-local", f'] ds else 0) = 0
      rw [if_neg (fun h => hd h.symm)]
    rw [h0]
    omega
  rw [hc]
  have hlen : (repo ++ d :: ds).length - repo.length = (d :: ds).length := by
    simp
  have hdrop : (repo ++ ["docs", "src-local", f']).drop repo.length
      = ["docs", "src-local", f'] := by
    simp [List.drop_left]
  rw [hlen, hdrop]
  rw [if_neg (by simp)]

/-- One unfolding of `'/'.join` when at least two components remain. -/
theorem joinSlashL_cons (x : List Char) (xs : List (List Char)) (h : xs ≠ []) :
    joinSlashL (x :: xs) = x ++ '/' :: joinSlashL xs := by
  cases xs with
  | nil => exact absurd rfl h
  | cons y ys => rfl

/-- Non-matching head step of the `/docs/` collapse. -/
theorem collapseDocs_cons_ne (c : Char) (cs : List Char)
    (h : ¬ (c = '/' ∧ ("docs/".toList).isPrefixOf cs = true)) :
    collapseDocs (c :: cs) = c :: collapseDocs cs := by
  rw [collapseDocs]
  rw [if_neg h]

/-- Matching step of the `/docs/` collapse. -/
theorem collapseDocs_cons_docs (cs : List Char)
    (h : ("docs/".toList).isPrefixOf cs = true) :
    collapseDocs ('/' :: cs) = '/' :: collapseDocs (cs.drop 5) := by
  rw [collapseDocs]
  rw [if_pos ⟨rfl, h⟩]

/-- Without an occurrence of `/docs/` the collapse is the identity. -/
theorem collapseDocs_of_no_slashdocs (l : List Char)
    (h : scanContains ("/docs/".toList) l = false) : collapseDocs l = l := by
  induction l with
  | nil => simp [collapseDocs]
  | cons c cs ih =>
    simp only [scanContains, Bool.or_eq_false_iff] at h
    rw [collapseDocs_cons_ne c cs ?_, ih h.2]
    rintro ⟨rfl, hpre⟩
    have hfull : ("/docs/".toList).isPrefixOf ('/' :: cs) = true := by
      have hstep : ("/docs/".toList).isPrefixOf ('/' :: cs)
          = ((('/' : Char) == '/') && ("docs/".toList).isPrefixOf cs) := rfl
      rw [hstep, hpre]
      simp
    rw [h.1] at hfull
    exact Bool.false_ne_true hfull

/-- A slash-free tail cannot contain `/docs/`. -/
theorem scanContains_false_of_no_slash (f : List Char) (hf : '/' ∉ f) :
    scanContains ("/docs/".toList) f = false := by
  induction f with
  | nil => rfl
  | cons c cs ih =>
    simp only [scanContains, Bool.or_eq_false_iff]
    refine ⟨?_, ih (fun h => hf (List.mem_cons_of_mem _ h))⟩
    have hc : ¬ ('/' = c) := fun h => hf (by simp [← h])
    show (('/' :: "docs/".toList).isPrefixOf (c :: cs)) = false
    simp [List.isPrefixOf, hc]

/-- `src-local/<name>` with a slash-free `<name>` contains no `/docs/`. -/
theorem scanContains_srclocal (f : List Char) (hf : '/' ∉ f) :
    scanContains ("/docs/".toList) ("src-local".toList ++ '/' :: f) = false := by
  have hdocs : ("docs/".toList).isPrefixOf f = false := by
    by_contra h
    have h' : ("docs/".toList).isPrefixOf f = true := by simpa using h
    rcases List.isPrefixOf_iff_prefix.mp h' with ⟨t, ht⟩
    apply hf
    rw [← ht]
    simp
  have htail := scanContains_false_of_no_slash f hf
  simp [scanContains, List.isPrefixOf]
  exact ⟨hdocs, htail⟩

/-- Collapsing `/docs/` out of `'/'.join(['..'] * (n+1) + ['docs'] + rest)`
leaves `'/'.join(['..'] * (n+1) + rest)` when the joined `rest` is itself
collapse-stable and non-empty. -/
theorem collapseDocs_join (n : Nat) (restParts : List (List Char)) (hne : restParts ≠ [])
    (hj : collapseDocs (joinSlashL restParts) = joinSlashL restParts) :
    collapseDocs (joinSlashL (List.replicate (n + 1) ("..".toList)
        ++ "docs".toList :: restParts))
      = joinSlashL (List.replicate (n + 1) ("..".toList) ++ restParts) := by
  induction n with
  | zero =>
    have h1 : List.replicate 1 ("..".toList) ++ "docs".toList :: restParts
        = "..".toList :: "docs".toList :: restParts := rfl
    have h2 : List.replicate 1 ("..".toList) ++ restParts = "..".toList :: restParts := rfl
    rw [h1, h2]
    rw [joinSlashL_cons _ _ (by simp)]
    rw [joinSlashL_cons _ _ hne]
    rw [joinSlashL_cons _ _ hne]
    rw [show ("..".toList ++ '/' :: ("docs".toList ++ '/' :: joinSlashL restParts))
      = '.' :: '.' :: '/' :: 'd' :: 'o' :: 'c' :: 's' :: '/' :: joinSlashL restParts from rfl]
    rw [collapseDocs_cons_ne '.' _ (by rintro ⟨h, -⟩; cases h)]
    rw [collapseDocs_cons_ne '.' _ (by rintro ⟨h, -⟩; cases h)]
    have hpre : ("docs/".toList).isPrefixOf
        ('d' :: 'o' :: 'c' :: 's' :: '/' :: joinSlashL restParts) = true := by
      simp [List.isPrefixOf]
    rw [collapseDocs_cons_docs _ hpre]
    rw [show ('d' :: 'o' :: 'c' :: 's' :: '/' :: joinSlashL restParts).drop 5
      = joinSlashL restParts from rfl]
    rw [hj]
    rfl
  | succ n ih =>
    have hA : List.replicate (n + 2) ("..".toList) ++ "docs".toList :: restParts
        = "..".toList :: (List.replicate (n + 1) ("..".toList) ++ "docs".toList :: restParts) := by
      rw [List.replicate_succ]; rfl
    have hB : List.replicate (n + 2) ("..".toList) ++ restParts
        = "..".toList :: (List.replicate (n + 1) ("..".toList) ++ restParts) := by
      rw [List.replicate_succ]; rfl
    rw [hA, hB]
    rw [joinSlashL_cons _ _ (by simp)]
    rw [joinSlashL_cons _ _ (by simp)]
    obtain ⟨s, hs⟩ : ∃ s, joinSlashL (List.replicate (n + 1) ("..".toList)
        ++ "docs".toList :: restParts) = '.' :: '.' :: s := by
      have hC : List.replicate (n + 1) ("..".toList) ++ "docs".toList :: restParts
          = "..".toList :: (List.replicate n ("..".toList) ++ "docs".toList :: restParts) := by
        rw [List.replicate_succ]; rfl
      rw [hC, joinSlashL_cons _ _ (by simp)]
      exact ⟨_, rfl⟩
    rw [show ("..".toList ++ '/' :: joinSlashL (List.replicate (n + 1) ("..".toList)
        ++ "docs".toList :: restParts))
      = '.' :: '.' :: '/' :: joinSlashL (List.replicate (n + 1) ("..".toList)
        ++ "docs".toList :: restParts) from rfl]
    rw [collapseDocs_cons_ne '.' _ (by rintro ⟨h, -⟩; cases h)]
    rw [collapseDocs_cons_ne '.' _ (by rintro ⟨h, -⟩; cases h)]
    have hnp : ¬ (('/' : Char) = '/' ∧ ("docs/".toList).isPrefixOf
        (joinSlashL (List.replicate (n + 1) ("..".toList)
          ++ "docs".toList :: restParts)) = true) := by
      rintro ⟨-, hpre⟩
      rw [hs] at hpre
      simp [List.isPrefixOf] at hpre
    rw [collapseDocs_cons_ne '/' _ hnp]
    rw [ih]
    rfl

/-- Climbing `..` once per trailing directory returns to the shared base. -/
theorem resolveRel_ups (b : List String) (dirs : List String) :
    resolveRel (b ++ dirs) (List.replicate dirs.length "..") = b := by
  induction dirs using List.reverseRecOn with
  | nil => simp [resolveRel]
  | append_singleton ds d ih =>
    have hlen : (ds ++ [d]).length = ds.length + 1 := by simp
    rw [hlen, List.replicate_succ]
    show resolveRel (b ++ (ds ++ [d])) (".." :: List.replicate ds.length "..") = b
    unfold resolveRel
    rw [List.foldl_cons]
    rw [if_pos rfl]
    rw [show (b ++ (ds ++ [d])).dropLast = b ++ ds by
      rw [← List.append_assoc, List.dropLast_concat]]
    exact ih

/-- Descending into two non-`..` components appends them. -/
theorem resolveRel_descend (b : List String) (x y : String)
    (hx : x ≠ "..") (hy : y ≠ "..") : resolveRel b [x, y] = b ++ [x, y] := by
  unfold resolveRel
  rw [List.foldl_cons, if_neg hx, List.foldl_cons, if_neg hy]
  simp

/-- `resolveRel` splits across concatenated relative paths. -/
theorem resolveRel_append (b : List String) (p1 p2 : List String) :
    resolveRel b (p1 ++ p2) = resolveRel (resolveRel b p1) p2 := by
  unfold resolveRel
  rw [List.foldl_append]

/-- A name with `.html` appended is never the component `..`. -/
theorem append_html_ne_dotdot (s : String) : s ++ ".html" ≠ ".." := by
  intro h
  have hlen := congrArg String.length h
  rw [String.length_append] at hlen
  rw [show (".html" : String).length = 5 from rfl, show (".." : String).length = 2 from rfl] at hlen
  omega

/-- C5 (amended): include-link resolution of `create_include_link`, for a
source file in a proper subdirectory `repo_root ++ dirs` (`dirs` non-empty
and not itself starting at `docs`).  When no file with the include's
basename exists under `src-local`, the link is the external URL
`http://basilisk.fr/src/<include name>`.  When it exists, the link is the
relative path that climbs `dirs.length` levels and descends into
`src-local/<basename>.html` — the `/docs/` segment of the target is
collapsed away — and resolving that relative path against the page's
output directory `docs ++ dirs` lands exactly on the include target's
generated documentation page `repo_root/docs/src-local/<basename>.html`.
The restriction to non-empty `dirs` is necessary: `find_source_files` also
scans the repository root itself for `.c`/`.h` files, and for such a
root-level source the relpath of line 973 starts with `docs/...` without a
leading slash, the `/docs/` collapse of line 975 never fires, and the
emitted link resolves to a non-existent `docs/docs/src-local/...` path
(`C5_counterexample`). -/
theorem C5_include_link_resolution (filename : String) (repo_root dirs : List String)
    (srcLocalExists : String → Bool)
    (hdirs : dirs ≠ []) (hhead : dirs.head? ≠ some "docs") :
    (srcLocalExists (pyBasename filename) = false →
      create_include_link_url filename (repo_root ++ dirs) repo_root srcLocalExists =
        "http://basilisk.fr/src/" ++ filename) ∧
    (srcLocalExists (pyBasename filename) = true →
      create_include_link_url filename (repo_root ++ dirs) repo_root srcLocalExists =
        joinSlash (List.replicate dirs.length ".."
          ++ ["src-local", pyBasename filename ++ ".html"]) ∧
      resolveRel (repo_root ++ "docs" :: dirs)
          (List.replicate dirs.length ".." ++ ["src-local", pyBasename filename ++ ".html"]) =
        repo_root ++ ["docs", "src-local", pyBasename filename ++ ".html"]) := by
  rcases List.exists_cons_of_ne_nil hdirs with ⟨d, ds, rfl⟩
  have hd : d ≠ "docs" := by
    intro hc
    exact hhead (by simp [hc])
  constructor
  · intro hex
    unfold create_include_link_url
    rw [hex]
    rfl
  · intro hex
    have hf' : pyWithSuffix (pyBasename filename) (pySuffix (pyBasename filename) ++ ".html")
        = pyBasename filename ++ ".html" := pyWithSuffix_suffix_html _
    constructor
    · unfold create_include_link_url
      rw [hex]
      simp only [if_true]
      rw [hf']
      rw [pyRelpath_docs repo_root d ds (pyBasename filename ++ ".html") hd]
      have hnoslash : '/' ∉ (pyBasename filename ++ ".html").toList := by
        intro hmem
        rw [show (pyBasename filename ++ ".html").toList
          = (pyBasename filename).toList ++ ".html".toList from String.data_append _ _] at hmem
        rcases List.mem_append.mp hmem with h | h
        · exact basenameL_no_slash filename.toList h
        · simp at h
      have hjoin : joinSlashL ["src-local".toList, (pyBasename filename ++ ".html").toList]
          = "src-local".toList ++ '/' :: (pyBasename filename ++ ".html").toList := by
        rw [joinSlashL_cons _ _ (by simp)]
        rfl
      have hstable : collapseDocs (joinSlashL ["src-local".toList,
          (pyBasename filename ++ ".html").toList])
          = joinSlashL ["src-local".toList, (pyBasename filename ++ ".html").toList] := by
        rw [hjoin]
        exact collapseDocs_of_no_slashdocs _ (scanContains_srclocal _ hnoslash)
      have hLtoList : (joinSlash (List.replicate (d :: ds).length ".."
            ++ ["docs", "src-local", pyBasename filename ++ ".html"])).toList
          = joinSlashL (List.replicate (d :: ds).length ("..".toList)
            ++ "docs".toList
              :: ["src-local".toList, (pyBasename filename ++ ".html").toList]) := by
        unfold joinSlash
        show joinSlashL _ = joinSlashL _
        congr 1
        simp
      rw [hLtoList]
      rw [show (d :: ds).length = ds.length + 1 from rfl]
      rw [collapseDocs_join ds.length
        ["src-local".toList, (pyBasename filename ++ ".html").toList] (by simp) hstable]
      have hmap2 : (List.replicate (ds.length + 1) ".."
            ++ ["src-local", pyBasename filename ++ ".html"]).map String.toList
          = List.replicate (ds.length + 1) ("..".toList)
            ++ ["src-local".toList, (pyBasename filename ++ ".html").toList] := by
        simp
      unfold joinSlash
      rw [hmap2]
    · rw [resolveRel_append]
      rw [show repo_root ++ "docs" :: d :: ds = (repo_root ++ ["docs"]) ++ (d :: ds) by simp]
      rw [resolveRel_ups (repo_root ++ ["docs"]) (d :: ds)]
      rw [resolveRel_descend _ _ _ (by decide) (append_html_ne_dotdot _)]
      simp

/-- Witness for C5: the include `"local.h"` from a source file in
`repo/simulationCases`, with `local.h` present under `src-local`, links to
`../src-local/local.h.html`, which resolves from `repo/docs/simulationCases`
to `repo/docs/src-local/local.h.html`; the absent include `"absent.h"` links
to the external Basilisk URL. -/
theorem C5_witness :
    create_include_link_url "local.h" ["repo", "simulationCases"] ["repo"]
        (fun s => s == "local.h") = "../src-local/local.h.html" ∧
      create_include_link_url "absent.h" ["repo", "simulationCases"] ["repo"]
        (fun s => s == "local.h") = "http://basilisk.fr/src/absent.h" ∧
      resolveRel ["repo", "docs", "simulationCases"] ["..", "src-local", "local.h.html"] =
        ["repo", "docs", "src-local", "local.h.html"] := by
  have h := C5_include_link_resolution "local.h" ["repo"] ["simulationCases"]
    (fun s => s == "local.h") (by decide) (by decide)
  have hb := C5_include_link_resolution "absent.h" ["repo"] ["simulationCases"]
    (fun s => s == "local.h") (by decide) (by decide)
  have h2 := h.2 (by decide)
  refine ⟨?_, ?_, by decide⟩
  · have heq := h2.1
    simp only [List.cons_append, List.nil_append] at heq
    rw [heq]
    decide
  · have heq := hb.1 (by decide)
    simpa using heq

/-- C5 counterexample to the claim as stated: for a source file at the
repository root itself (parent directory `repo`, as produced by the root
scan of `find_source_files`), with `local.h` present under `src-local`,
the emitted link is `docs/src-local/local.h.html` — the relpath has no
leading slash, so the `/docs/` collapse of line 975 does not fire — and
resolving it against the page's output directory `repo/docs` yields
`repo/docs/docs/src-local/local.h.html`, which is not the include
target's generated documentation page
`repo/docs/src-local/local.h.html`. -/
theorem C5_counterexample :
    create_include_link_url "local.h" ["repo"] ["repo"] (fun s => s == "local.h") =
      "docs/src-local/local.h.html" ∧
    resolveRel ["repo", "docs"] ["docs", "src-local", "local.h.html"] =
      ["repo", "docs", "docs", "src-local", "local.h.html"] ∧
    (["repo", "docs", "docs", "src-local", "local.h.html"] : List String) ≠
      ["repo", "docs", "src-local", "local.h.html"] := by
  refine ⟨?_, by decide, by decide⟩
  have hstable : collapseDocs ("docs/src-local/local.h.html".toList)
      = "docs/src-local/local.h.html".toList :=
    collapseDocs_of_no_slashdocs _ (by decide)
  have hurl : create_include_link_url "local.h" ["repo"] ["repo"] (fun s => s == "local.h")
      = String.mk (collapseDocs ("docs/src-local/local.h.html".toList)) := rfl
  rw [hurl, hstable]
  rfl

/-- C3 (code bug): on the README block

```
src/ - desc
  file.py - desc2
```

the claim (and the function's own docstring) expect a nested list whose
file entry links to `src/file.py.html` and whose directory entry links to
`src`.  Because line 1320 first deletes every space from each line, the
path-description separator ` - ` is destroyed: the two lines are parsed as
single tokens — `src` `/` `-desc` glued together (no longer ending in a
slash, hence not a directory) and `file.py-desc2` — producing flat file
links (token + `.html`) with empty descriptions, and no `src/file.py.html`
link anywhere. -/
theorem C3_tree_parser_mangles_lines :
    convert_directory_tree_to_html "```\nsrc/ - desc\n  file.py - desc2\n```" =
      "<div class=\"repository-structure\">\n* **[src/-desc](src/-desc.html)** - \n* **[file.py-desc2](file.py-desc2.html)** - \n</div>" ∧
      containsSub (convert_directory_tree_to_html "```\nsrc/ - desc\n  file.py - desc2\n```")
        "src/file.py.html" = false := by
  exact ⟨by decide, by decide⟩

/-- Characters surviving the embedded sanitization of line 68. -/
theorem removeEmbeddedBad_mem {l : List Char} {c : Char} (hc : c ∈ removeEmbeddedBad l) :
    c ≠ '"' ∧ c ≠ '\'' ∧ c ≠ '\\' ∧ c ≠ '<' ∧ c ≠ '>' := by
  unfold removeEmbeddedBad at hc
  have := (List.mem_filter.mp hc).2
  simp only [decide_eq_true_eq, not_or] at this
  exact ⟨this.1, this.2.1, this.2.2.1, this.2.2.2.1, this.2.2.2.2⟩

/-- The final pass of lines 119-127 leaves no double quote. -/
theorem finalizeDesc_no_quote (l : List Char) : ∀ c ∈ finalizeDesc l, c ≠ '"' := by
  intro c hc
  unfold finalizeDesc at hc
  have hmem : ∀ x ∈ (stripTags l).map (fun c => if c = '"' then '\'' else c), x ≠ '"' := by
    intro x hx
    rcases List.mem_map.mp hx with ⟨y, -, rfl⟩
    by_cases hy : y = '"'
    · simp [hy]
    · simp [hy]
  by_cases hlen : ((stripTags l).map (fun c => if c = '"' then '\'' else c)).length > 160
  · rw [if_pos hlen] at hc
    rcases List.mem_append.mp hc with h | h
    · exact hmem c (List.mem_of_mem_take h)
    · rw [show ("...".toList : List Char) = ['.', '.', '.'] from rfl] at h
      simp only [List.mem_cons] at h
      rcases h with rfl | h
      · decide
      · rcases h with rfl | h
        · decide
        · rcases h with rfl | h
          · decide
          · simp at h
  · rw [if_neg hlen] at hc
    exact hmem c hc

/-- The final pass of lines 119-127 never exceeds 160 characters. -/
theorem finalizeDesc_length (l : List Char) : (finalizeDesc l).length ≤ 160 := by
  unfold finalizeDesc
  by_cases hlen : ((stripTags l).map (fun c => if c = '"' then '\'' else c)).length > 160
  · rw [if_pos hlen]
    rw [List.length_append, List.length_take]
    have : min 157 ((stripTags l).map (fun c => if c = '"' then '\'' else c)).length = 157 := by
      omega
    rw [this]
    decide
  · rw [if_neg hlen]
    omega

/-- C1 (amended): the description returned by `extract_seo_metadata` never
contains a raw double quote.  When it comes from an embedded
`SEO_METADATA` comment it additionally contains no `<`, `>`, apostrophe or
backslash (all stripped by line 68) — but it is returned without
re-truncation and may exceed 160 characters (`C1_counterexample`).  When
it is derived heuristically or by the default, it is at most 160
characters long — though a bare `<` or `>` that does not form an HTML tag
survives the tag-stripping of line 122 (for example
`extract_seo_description "x" "# Title\nalpha < beta gamma"` yields
`"alpha < beta gamma"`). -/
theorem C1_description_sanitization_amended (stem content d : String)
    (hd : extract_seo_description stem content = some d) :
    (∀ c ∈ d.toList, c ≠ '"') ∧
      (embeddedTaken content = true →
        ∀ c ∈ d.toList, c ≠ '<' ∧ c ≠ '>' ∧ c ≠ '\'' ∧ c ≠ '\\') ∧
      (embeddedTaken content = false → d.toList.length ≤ 160) := by
  unfold extract_seo_description at hd
  unfold embeddedTaken
  cases hseo : seoSearch content.toList with
  | none =>
    rw [hseo] at hd
    dsimp only at hd ⊢
    have hdval : d = String.mk (finalizeDesc
        ((heuristicDesc content.toList).getD (defaultDesc stem.toList))) :=
      (Option.some_inj.mp hd).symm
    subst hdval
    refine ⟨finalizeDesc_no_quote _, ?_, ?_⟩
    · intro hcontra
      exact absurd hcontra (by decide)
    · intro _
      exact finalizeDesc_length _
  | some j =>
    rw [hseo] at hd
    dsimp only at hd ⊢
    cases hjson : jsonParseObj j with
    | none =>
      rw [hjson] at hd
      have hd2 : some (String.mk (finalizeDesc
          ((heuristicDesc content.toList).getD (defaultDesc stem.toList)))) = some d := hd
      have hdval : d = String.mk (finalizeDesc
          ((heuristicDesc content.toList).getD (defaultDesc stem.toList))) :=
        (Option.some_inj.mp hd2).symm
      subst hdval
      refine ⟨finalizeDesc_no_quote _, ?_, ?_⟩
      · intro hcontra
        exact absurd hcontra (by decide)
      · intro _
        exact finalizeDesc_length _
    | some obj =>
      rw [hjson] at hd
      have hd2 : ((obj.reverse.find? (fun e => e.1 = "description")).map
          (fun e => String.mk (removeEmbeddedBad (stripTags e.2.toList)))) = some d := hd
      rcases Option.map_eq_some'.mp hd2 with ⟨e, -, hde⟩
      have hdval : d = String.mk (removeEmbeddedBad (stripTags e.2.toList)) := hde.symm
      subst hdval
      refine ⟨?_, ?_, ?_⟩
      · intro c hc
        exact (removeEmbeddedBad_mem hc).1
      · intro _ c hc
        obtain ⟨-, h2, h3, h4, h5⟩ := removeEmbeddedBad_mem hc
        exact ⟨h4, h5, h2, h3⟩
      · intro hcontra
        simp at hcontra

/-- Witness for C1: an embedded metadata comment carrying a clean short
description is returned verbatim, with the sanitization guarantees of the
amended claim instantiated. -/
theorem C1_witness :
    extract_seo_description "notebook"
        "<!--SEO_METADATA:\x7b\"description\": \"Flow solver\"\x7d-->" =
      some "Flow solver" ∧
      embeddedTaken "<!--SEO_METADATA:\x7b\"description\": \"Flow solver\"\x7d-->" = true ∧
      ∀ c ∈ ("Flow solver" : String).toList, c ≠ '"' ∧ c ≠ '<' ∧ c ≠ '>' := by
  have h := C1_description_sanitization_amended "notebook"
    "<!--SEO_METADATA:\x7b\"description\": \"Flow solver\"\x7d-->" "Flow solver" (by decide)
  refine ⟨by decide, by decide, ?_⟩
  intro c hc
  exact ⟨h.1 c hc, (h.2.1 (by decide) c hc).1, (h.2.1 (by decide) c hc).2.1⟩

/-- C1 counterexample to the claim as stated: an embedded metadata comment
whose description is 170 characters long is returned by
`extract_seo_metadata` without any truncation — the claim's 160-character
bound fails on the embedded path (the character-sanitization half of the
claim does hold there). -/
theorem C1_counterexample :
    extract_seo_description "notebook"
        ("<!--SEO_METADATA:\x7b\"description\": \""
          ++ String.mk (List.replicate 170 'a') ++ "\"\x7d-->") =
      some (String.mk (List.replicate 170 'a')) ∧
      160 < (String.mk (List.replicate 170 'a')).length := by
  exact ⟨by decide, by decide⟩
